import Mathlib

/-!
Verification of the access reconciliation engine of `src/server.js`
(pfsense-toggle).  The JavaScript is shallowly embedded: mutable maps
(`activeTimers`, `activeSkips`, `kidKnownMacs`, `kidBlockedMacs`) become
association lists that are threaded explicitly, network calls become events
in a trace, and `Date` values become an explicit `Instant` of local-calendar
day number and minute of day (day `0` is a Sunday, matching the
`Date.getDay()` convention `0=Sun .. 6=Sat`; `ms` reproduces the
millisecond timestamps the code compares with `Date.now()`).
-/

set_option linter.unusedVariables false

namespace PfToggle

/-- A schedule window, from `schedules.json` entries
`{ days: [0-6], start: 'HH:MM', end: 'HH:MM' }`.  The `'HH:MM'` strings are
embedded as the `(hours, minutes)` pair their `timeToMinutes` parse yields;
`endT` embeds the JS field `end` (a Lean keyword). -/
structure Window where
  days : List Nat
  start : Nat × Nat
  endT : Nat × Nat
deriving DecidableEq, Repr

/-- One entry of `scheduleConfig`: `{ enabled: bool, windows: [...] }`. -/
structure ScheduleCfg where
  enabled : Bool
  windows : List Window
deriving DecidableEq, Repr

/-- A local-clock instant: `day` is the absolute day number with day `0` a
Sunday (so `day % 7` is `Date.getDay()`), `minute` is
`getHours()*60 + getMinutes()`, and `sub` the sub-minute milliseconds seen
only by `Date.now()`. -/
structure Instant where
  day : Nat
  minute : Nat
  sub : Nat
deriving DecidableEq, Repr

/-- The millisecond timestamp `Date.now()` of an instant. -/
def Instant.ms (i : Instant) : Nat :=
  (i.day * 1440 + i.minute) * 60000 + i.sub

/-- The millisecond timestamp of minute-of-day `m` on day `d`
(what `d.setHours(Math.floor(m/60), m%60, 0, 0); d.getTime()` produces). -/
def dayMs (d m : Nat) : Nat :=
  (d * 1440 + m) * 60000

/-- `timeToMinutes` of `server.js`: `'HH:MM'` to minute of day, on the
already-parsed `(h, m)` pair. -/
def timeToMinutes (t : Nat × Nat) : Nat :=
  t.1 * 60 + t.2

/-- Result record of `computeScheduleInfo`:
`{ enabled, active, windowEnd: ms|null, nextStart: ms|null, nextEnd: ms|null }`. -/
structure ScheduleInfo where
  enabled : Bool
  active : Bool
  windowEnd : Option Nat
  nextStart : Option Nat
  nextEnd : Option Nat
deriving DecidableEq, Repr

/-- The first loop of `computeScheduleInfo`: scan the windows matching
today, keeping the latest end (`if (d.getTime() > windowEndMs)`) of any
window with `nowMin >= startMin && nowMin < endMin`. -/
def windowEndLoop (day today nowMin : Nat) : List Window → Option Nat → Option Nat
  | [], acc => acc
  | win :: rest, acc =>
    if today ∈ win.days then
      let startMin := timeToMinutes win.start
      let endMin := timeToMinutes win.endT
      if startMin ≤ nowMin ∧ nowMin < endMin then
        let e := dayMs day endMin
        match acc with
        | none => windowEndLoop day today nowMin rest (some e)
        | some prev =>
          if e > prev then windowEndLoop day today nowMin rest (some e)
          else windowEndLoop day today nowMin rest (some prev)
      else windowEndLoop day today nowMin rest acc
    else windowEndLoop day today nowMin rest acc

/-- Inner loop of the forward scan of `computeScheduleInfo` for one day
offset: every window on `(today + offset) % 7` that has not already passed
today (`offset === 0 && startMin <= nowMin` is skipped) lowers the running
earliest start (`d.getTime() < nextStartMs`), recording the paired end. -/
def scanDayLoop (day today nowMin offset : Nat) :
    List Window → Option (Nat × Nat) → Option (Nat × Nat)
  | [], acc => acc
  | win :: rest, acc =>
    if (today + offset) % 7 ∈ win.days then
      let startMin := timeToMinutes win.start
      if offset = 0 ∧ startMin ≤ nowMin then scanDayLoop day today nowMin offset rest acc
      else
        let s := dayMs (day + offset) startMin
        match acc with
        | none =>
          scanDayLoop day today nowMin offset rest
            (some (s, dayMs (day + offset) (timeToMinutes win.endT)))
        | some pr =>
          if s < pr.1 then
            scanDayLoop day today nowMin offset rest
              (some (s, dayMs (day + offset) (timeToMinutes win.endT)))
          else scanDayLoop day today nowMin offset rest (some pr)
    else scanDayLoop day today nowMin offset rest acc

/-- Outer loop of the forward scan: day offsets `0 .. 6`, stopping at the
first offset after which a next start has been found
(`if (nextStartMs < Infinity) break`). -/
def scanNextAux (windows : List Window) (day today nowMin : Nat) :
    Nat → Nat → Option (Nat × Nat) → Option (Nat × Nat)
  | _, 0, acc => acc
  | offset, fuel + 1, acc =>
    match scanDayLoop day today nowMin offset windows acc with
    | some r => some r
    | none => scanNextAux windows day today nowMin (offset + 1) fuel none

/-- The forward scan of `computeScheduleInfo` (`for (let offset = 0;
offset < 7; offset++)`), returning `(nextStartMs, nextEndMs)` when found. -/
def scanNext (windows : List Window) (day today nowMin : Nat) : Option (Nat × Nat) :=
  scanNextAux windows day today nowMin 0 7 none

/-- `computeScheduleInfo` of `server.js`, on the schedule entry of the
requested tracker (`scheduleConfig[String(tracker)]` is passed in as an
`Option ScheduleCfg`). -/
def computeScheduleInfo (cfg? : Option ScheduleCfg) (now : Instant) : ScheduleInfo :=
  match cfg? with
  | none => ⟨false, false, none, none, none⟩
  | some config =>
    if config.enabled = false ∨ config.windows = [] then
      ⟨config.enabled, false, none, none, none⟩
    else
      let today := now.day % 7
      let nowMin := now.minute
      match windowEndLoop now.day today nowMin config.windows none with
      | some e => ⟨true, true, some e, none, none⟩
      | none =>
        match scanNext config.windows now.day today nowMin with
        | some se => ⟨true, false, none, some se.1, some se.2⟩
        | none => ⟨true, false, none, none, none⟩

/-! ### State model: association lists standing in for the JS `Map`s -/

/-- `Map.get(k)` on an association list (first entry with the key). -/
def lookup {α : Type} (l : List (Nat × α)) (k : Nat) : Option α :=
  (l.find? (fun p => decide (p.1 = k))).map Prod.snd

/-- `Map.set(k, v)`: replace the entry if present, else append. -/
def setKey {α : Type} (l : List (Nat × α)) (k : Nat) (v : α) : List (Nat × α) :=
  if (l.find? (fun p => decide (p.1 = k))).isSome then
    l.map (fun p => if p.1 = k then (k, v) else p)
  else l ++ [(k, v)]

/-- `Map.delete(k)`. -/
def removeKey {α : Type} (l : List (Nat × α)) (k : Nat) : List (Nat × α) :=
  l.filter (fun p => decide (p.1 ≠ k))

/-- A pfSense firewall rule as used by the engine: `{id, tracker, disabled}`.
`disabled = true` means the block rule is bypassed, i.e. the kid is ALLOWED. -/
structure Rule where
  id : Nat
  tracker : Nat
  disabled : Bool
deriving DecidableEq, Repr

/-- `allRules.find(r => r.tracker === tracker)`. -/
def findRule (rules : List Rule) (t : Nat) : Option Rule :=
  rules.find? (fun r => decide (r.tracker = t))

/-- The remote effect of `PATCH /api/v2/firewall/rule { id, disabled }`
on the rule set. -/
def patchById (rules : List Rule) (i : Nat) (d : Bool) : List Rule :=
  rules.map (fun r => if r.id = i then { r with disabled := d } else r)

/-- One `activeTimers` record `{ endTime, kidName }` (the `timeoutId`
runtime handle carries no state and is dropped). -/
structure TimerRec where
  endTime : Nat
  kidName : String
deriving DecidableEq, Repr

/-- One configured kid of `CONFIG.HOME_RULES`: `{ tracker, name }` (the
`scheduleTracker` field is unused by the engine). -/
structure KidConfig where
  tracker : Nat
  name : String
deriving DecidableEq, Repr

/-- Externally visible actions of the engine, in issue order. -/
inductive Event where
  | patchRule (id : Nat) (disabled : Bool)
  | applyFirewall
  | killStates (tracker : Nat)
  | unifiBlock (tracker : Nat)
  | unifiUnblock (tracker : Nat)
  | log (action : String)
  | notif (title : String)
deriving DecidableEq, Repr

/-- `skipUntil && Date.now() < skipUntil` for
`skipUntil = activeSkips.get(tracker)` (JS truthiness: a `0` timestamp is
falsy). -/
def skipActiveAt (skips : List (Nat × Nat)) (t : Nat) (nowMs : Nat) : Bool :=
  match lookup skips t with
  | none => false
  | some su => decide (su ≠ 0) && decide (nowMs < su)

/-! ### Reconciliation loop (`enforceSchedules`) -/

/-- The per-kid body of the `enforceSchedules` loop, reduced to its
correction decision: `none` when the loop takes no action for the kid
(active timer, disabled schedule, rule not found, or actual already equals
desired); `some (rule, d)` when the block rule is patched to
`disabled := d`. -/
def kidStep (snapshot : List Rule) (timers : List (Nat × TimerRec))
    (skips : List (Nat × Nat)) (schedules : List (Nat × ScheduleCfg))
    (now : Instant) (kid : KidConfig) : Option (Rule × Bool) :=
  if (lookup timers kid.tracker).isSome then none
  else
    let info := computeScheduleInfo (lookup schedules kid.tracker) now
    if info.enabled = false then none
    else
      match findRule snapshot kid.tracker with
      | none => none
      | some blockRule =>
        let kidIsAllowed := blockRule.disabled
        let skipActive := skipActiveAt skips kid.tracker now.ms
        let shouldBeAllowed := info.active && !skipActive
        if shouldBeAllowed = true ∧ kidIsAllowed = false then some (blockRule, true)
        else if shouldBeAllowed = false ∧ kidIsAllowed = true then some (blockRule, false)
        else none

/-- Accumulated outcome of the kid loop: the (remote) rule world after the
patches, the event trace of the loop body, the `needsApply` flag, and the
deferred `toKillStates` batch in push order. -/
structure RunOut where
  world : List Rule
  trace : List Event
  needsApply : Bool
  toKill : List Nat
deriving DecidableEq, Repr

/-- The `for (const kid of CONFIG.HOME_RULES)` loop of `enforceSchedules`.
Rule lookups use the one shared `snapshot` fetched before the loop; patches
accumulate in `world`.  An allow correction logs, notifies and awaits
`unifiUnblockKid` inline; a block correction logs, notifies and defers the
kill/edge work by pushing onto `toKill`. -/
def runKids (snapshot : List Rule) (timers : List (Nat × TimerRec))
    (skips : List (Nat × Nat)) (schedules : List (Nat × ScheduleCfg))
    (now : Instant) : List KidConfig → List Rule → RunOut
  | [], world => ⟨world, [], false, []⟩
  | kid :: rest, world =>
    match kidStep snapshot timers skips schedules now kid with
    | none => runKids snapshot timers skips schedules now rest world
    | some (r, true) =>
      let tail := runKids snapshot timers skips schedules now rest (patchById world r.id true)
      ⟨tail.world,
       Event.patchRule r.id true :: Event.log "schedule-allow" :: Event.notif "Schedule"
         :: Event.unifiUnblock kid.tracker :: tail.trace,
       true, tail.toKill⟩
    | some (r, false) =>
      let tail := runKids snapshot timers skips schedules now rest (patchById world r.id false)
      ⟨tail.world,
       Event.patchRule r.id false :: Event.log "schedule-block" :: Event.notif "Schedule"
         :: tail.trace,
       true, kid.tracker :: tail.toKill⟩

/-- Result of one reconciliation tick. -/
structure TickResult where
  rules : List Rule
  skips : List (Nat × Nat)
  trace : List Event
deriving DecidableEq, Repr

/-- `enforceSchedules` of `server.js` on a successfully fetched rule set:
prune expired skips (`Date.now() >= su`), run the kid loop against the one
shared snapshot, and, only if some correction was made, issue the single
`/api/v2/firewall/apply` followed by the deferred per-kid
`killStatesForSource` and `unifiBlockKid` calls. -/
def enforceSchedules (kids : List KidConfig) (rules : List Rule)
    (timers : List (Nat × TimerRec)) (skips : List (Nat × Nat))
    (schedules : List (Nat × ScheduleCfg)) (now : Instant) : TickResult :=
  let skips' := skips.filter (fun p => decide (now.ms < p.2))
  let out := runKids rules timers skips' schedules now kids rules
  if out.needsApply then
    ⟨out.world, skips',
     out.trace ++ [Event.applyFirewall]
       ++ out.toKill.flatMap (fun t => [Event.killStates t, Event.unifiBlock t])⟩
  else ⟨out.world, skips', out.trace⟩

/-! ### Timer subsystem (`blockKidNow`, timed-allow and cancel-timer routes) -/

/-- Result of `blockKidNow` / `cancelTimer`: the timer map, the (remote)
rule set, and the event trace. -/
structure BlockRes where
  timers : List (Nat × TimerRec)
  rules : List Rule
  trace : List Event
deriving DecidableEq, Repr

/-- `blockKidNow(tracker)` of `server.js`: delete the timer record first,
then, unless the schedule is currently active and not skipped, re-block —
but only when the fetched rule exists and is in the allowing
(`disabled`) state does it patch, apply, kill states, block on UniFi and
record the `timer-expired` transition. -/
def blockKidNow (tracker : Nat) (timers : List (Nat × TimerRec))
    (skips : List (Nat × Nat)) (schedules : List (Nat × ScheduleCfg))
    (rules : List Rule) (now : Instant) : BlockRes :=
  let timers' := removeKey timers tracker
  let info := computeScheduleInfo (lookup schedules tracker) now
  let skipActive := skipActiveAt skips tracker now.ms
  if info.enabled && info.active && !skipActive then
    ⟨timers', rules, [Event.log "timer-expired"]⟩
  else
    match findRule rules tracker with
    | some rule =>
      if rule.disabled then
        ⟨timers', patchById rules rule.id false,
         [Event.patchRule rule.id false, Event.applyFirewall, Event.killStates tracker,
          Event.unifiBlock tracker, Event.log "timer-expired", Event.notif "Timer Expired"]⟩
      else ⟨timers', rules, []⟩
    | none => ⟨timers', rules, []⟩

/-- The `POST .../cancel-timer` route: if a timer record exists it is
cancelled, logged and deleted; in every case `blockKidNow` is then
invoked. -/
def cancelTimer (tracker : Nat) (timers : List (Nat × TimerRec))
    (skips : List (Nat × Nat)) (schedules : List (Nat × ScheduleCfg))
    (rules : List Rule) (now : Instant) : BlockRes :=
  match lookup timers tracker with
  | some _ =>
    let r := blockKidNow tracker (removeKey timers tracker) skips schedules rules now
    ⟨r.timers, r.rules, Event.log "timer-cancel" :: r.trace⟩
  | none => blockKidNow tracker timers skips schedules rules now

/-- Result of the `POST .../timed-allow` route. -/
structure TimedAllowRes where
  timers : List (Nat × TimerRec)
  rules : List Rule
  trace : List Event
  endTime : Nat
deriving DecidableEq, Repr

/-- The `POST .../timed-allow` route: validate `1 <= minutes <= 120`
(`!minutes || minutes < 1 || minutes > 120`), cancel any existing timer,
disable the block rule only when it is currently enabled (patch + apply +
UniFi unblock), then record the timer with
`endTime = Date.now() + minutes*60*1000`. -/
def timedAllow (tracker : Nat) (minutes : Nat) (name : String)
    (timers : List (Nat × TimerRec)) (rules : List Rule) (now : Instant) :
    Except String TimedAllowRes :=
  if minutes < 1 ∨ 120 < minutes then Except.error "minutes must be 1-120"
  else
    let step : List Rule × List Event :=
      match findRule rules tracker with
      | some blockRule =>
        if blockRule.disabled = false then
          (patchById rules blockRule.id true,
           [Event.patchRule blockRule.id true, Event.applyFirewall,
            Event.unifiUnblock tracker])
        else (rules, [])
      | none => (rules, [])
    let endTime := now.ms + minutes * 60000
    Except.ok ⟨setKey timers tracker ⟨endTime, name⟩, step.1,
               step.2 ++ [Event.log "timed-allow"], endTime⟩

/-! ### Skip ("skip-next") subsystem -/

/-- Result of the `POST .../skip-next` route: `err` is the 400 response
body when no window can be skipped, otherwise `skipUntil` holds the chosen
timestamp and `skips` the updated map (unchanged on failure, since the
route returns before `activeSkips.set`). -/
structure SkipNextRes where
  err : Option String
  skipUntil : Option Nat
  skips : List (Nat × Nat)
deriving DecidableEq, Repr

/-- JS truthiness of an optional millisecond timestamp
(`info.windowEnd` / `info.nextEnd` / `skipUntil`). -/
def otruthy (o : Option Nat) : Bool :=
  match o with
  | none => false
  | some n => decide (n ≠ 0)

/-- The `POST .../skip-next` route: `skipUntil = info.windowEnd` when
currently in a window, else `info.nextEnd`; with neither, answer 400 and
record nothing. -/
def skipNext (tracker : Nat) (skips : List (Nat × Nat))
    (schedules : List (Nat × ScheduleCfg)) (now : Instant) : SkipNextRes :=
  let info := computeScheduleInfo (lookup schedules tracker) now
  let skipUntil : Option Nat :=
    if info.active && otruthy info.windowEnd then info.windowEnd
    else if otruthy info.nextEnd then info.nextEnd
    else none
  match skipUntil with
  | none => ⟨some "No upcoming schedule window to skip", none, skips⟩
  | some su => ⟨none, some su, setKey skips tracker su⟩

/-! ### UniFi device sets (`learnMacs`, `unifiBlockKid`) -/

/-- One entry of the UniFi `/api/clients` response, as consumed by the
engine. -/
structure Client where
  mac : String
  ip : String
deriving DecidableEq, Repr

/-- `Set.add` over the insertion-ordered list embedding of a JS `Set`. -/
def setAdd (s : List String) (m : String) : List String :=
  if s.contains m then s else s ++ [m]

/-- `learnMacs(tracker, macs)` of `server.js`: drop excluded MACs
(`unifiExcludedMacs.has(m.toLowerCase())`), then add the rest to the kid's
known-MAC set. -/
def learnMacs (excluded : List String) (known : List (Nat × List String))
    (tracker : Nat) (macs : List String) : List (Nat × List String) :=
  let filtered := macs.filter (fun m => !excluded.contains m.toLower)
  if filtered = [] then known
  else
    let set := (lookup known tracker).getD []
    setKey known tracker (filtered.foldl setAdd set)

/-- Result of `unifiBlockKid`: the two persistent MAC maps and the list of
MACs a `/api/clients/block` command was issued for, in order. -/
structure UnifiBlockRes where
  known : List (Nat × List String)
  blocked : List (Nat × List String)
  blockCmds : List String
deriving DecidableEq, Repr

/-- `unifiBlockKid(tracker, sourceAddr, kidName)` of `server.js`.
External inputs are passed in: `configured` is `!!CONFIG.UNIFI_URL`, `ips`
the resolved source addresses, `clientsOk`/`clients` the `/api/clients`
response, and `blockOk` the per-MAC success of `/api/clients/block`
(successfully blocked MACs replace the kid's blocked set wholesale). -/
def unifiBlockKid (configured : Bool) (excluded : List String)
    (known blocked : List (Nat × List String)) (tracker : Nat)
    (ips : List String) (clientsOk : Bool) (clients : List Client)
    (blockOk : String → Bool) : UnifiBlockRes :=
  if configured = false then ⟨known, blocked, []⟩
  else if ips = [] then ⟨known, blocked, []⟩
  else
    let known1 :=
      if clientsOk then
        learnMacs excluded known tracker
          (ips.filterMap (fun ip => (clients.find? (fun c => c.ip == ip)).map Client.mac))
      else known
    let allMacs := ((lookup known1 tracker).getD []).filter
      (fun m => !excluded.contains m.toLower)
    if allMacs = [] then ⟨known1, blocked, []⟩
    else
      let nowBlocked := allMacs.filter blockOk
      let blocked' := if nowBlocked = [] then blocked else setKey blocked tracker nowBlocked
      ⟨known1, blocked', allMacs⟩

/-- `unifiUnblockKid` of `server.js`, reduced to its effect on the
persistent maps: it only reads `kidKnownMacs` and deletes the kid's
`kidBlockedMacs` entry; `unblockCmds` is the union it unblocks. -/
def unifiUnblockKid (configured : Bool) (excluded : List String)
    (known blocked : List (Nat × List String)) (tracker : Nat) :
    List (Nat × List String) × List String :=
  if configured = false then (blocked, [])
  else
    let toUnblock := (((lookup blocked tracker).getD []) ++ ((lookup known tracker).getD [])).filter
      (fun m => !excluded.contains m.toLower)
    if toUnblock = [] then (blocked, [])
    else (removeKey blocked tracker, toUnblock.eraseDups)

/-! ### Derived notions used by the statements -/

/-- The Desired-State Resolver implicit in the `enforceSchedules` loop body:
`none` when the loop asserts no desired state for the tracker (active timer,
or schedule disabled), else `some shouldBeAllowed`. -/
def desiredOf (timers : List (Nat × TimerRec)) (skips : List (Nat × Nat))
    (schedules : List (Nat × ScheduleCfg)) (now : Instant) (t : Nat) : Option Bool :=
  if (lookup timers t).isSome then none
  else
    let info := computeScheduleInfo (lookup schedules t) now
    if info.enabled = false then none
    else some (info.active && !(skipActiveAt skips t now.ms))

/-- `shouldBeAllowed` of the loop body, for a tracker. -/
def shouldBeAllowedOf (skips : List (Nat × Nat)) (schedules : List (Nat × ScheduleCfg))
    (now : Instant) (t : Nat) : Bool :=
  (computeScheduleInfo (lookup schedules t) now).active && !(skipActiveAt skips t now.ms)

/-- Is the event the shared `/api/v2/firewall/apply` call? -/
def isApplyEv : Event → Bool
  | Event.applyFirewall => true
  | _ => false

/-- Is the event a rule patch? -/
def isPatchEv : Event → Bool
  | Event.patchRule _ _ => true
  | _ => false

/-- Downstream side effects named by the spec: connection kills and
wireless block/unblock. -/
def isDeferredEffect : Event → Bool
  | Event.killStates _ => true
  | Event.unifiBlock _ => true
  | Event.unifiUnblock _ => true
  | _ => false

/-- Connection kills and wireless blocks (the effects the loop defers). -/
def isKillOrBlock : Event → Bool
  | Event.killStates _ => true
  | Event.unifiBlock _ => true
  | _ => false

/-- Is the event a wireless unblock? -/
def isUnblockEv : Event → Bool
  | Event.unifiUnblock _ => true
  | _ => false

/-- A disabled-flag override: the cumulative effect of rule patches on the
fetched rule set, keyed by rule id. -/
def ovRule (f : Nat → Option Bool) (r : Rule) : Rule :=
  match f r.id with
  | some b => { r with disabled := b }
  | none => r

/-- Apply a disabled-flag override to a whole rule set. -/
def ovWorld (f : Nat → Option Bool) (rules : List Rule) : List Rule :=
  rules.map (ovRule f)

/-- The override accumulated by the kid loop of `enforceSchedules`. -/
def patchFunOf (snapshot : List Rule) (timers : List (Nat × TimerRec))
    (skips : List (Nat × Nat)) (schedules : List (Nat × ScheduleCfg))
    (now : Instant) : List KidConfig → (Nat → Option Bool) → Nat → Option Bool
  | [], f => f
  | kid :: rest, f =>
    match kidStep snapshot timers skips schedules now kid with
    | none => patchFunOf snapshot timers skips schedules now rest f
    | some (r, d) =>
      patchFunOf snapshot timers skips schedules now rest
        (fun j => if j = r.id then some d else f j)

/-- A window puts the subject inside it now:
`win.days.includes(today) && startMin <= nowMin && nowMin < endMin`. -/
def activeMatch (today nowMin : Nat) (w : Window) : Prop :=
  today ∈ w.days ∧ timeToMinutes w.start ≤ nowMin ∧ nowMin < timeToMinutes w.endT

instance (today nowMin : Nat) (w : Window) : Decidable (activeMatch today nowMin w) := by
  unfold activeMatch; infer_instance

/-- A window is an upcoming candidate at day offset `o`: it lies on the
scanned weekday and, on offset `0`, has not already started
(`offset === 0 && startMin <= nowMin` is skipped). -/
def candAt (today nowMin o : Nat) (w : Window) : Prop :=
  (today + o) % 7 ∈ w.days ∧ (o = 0 → nowMin < timeToMinutes w.start)

instance (today nowMin o : Nat) (w : Window) : Decidable (candAt today nowMin o w) := by
  unfold candAt; infer_instance

/-! ## Helper lemmas on the association-list maps -/

theorem lookup_cons {α : Type} (a : Nat) (v : α) (t : List (Nat × α)) (k : Nat) :
    lookup ((a, v) :: t) k = if a = k then some v else lookup t k := by
  by_cases h : a = k <;> simp [lookup, List.find?_cons, h]

theorem lookup_append_single_none {α : Type} (l : List (Nat × α)) (k k' : Nat) (v : α)
    (h : lookup l k' = none) :
    lookup (l ++ [(k, v)]) k' = if k = k' then some v else none := by
  induction l with
  | nil =>
    rw [List.nil_append, lookup_cons]
    by_cases hkk : k = k' <;> simp [hkk, lookup]
  | cons p t ih =>
    cases p with
    | mk a b =>
      rw [lookup_cons] at h
      rw [List.cons_append, lookup_cons]
      by_cases hak : a = k'
      · rw [if_pos hak] at h
        exact absurd h (by simp)
      · rw [if_neg hak] at h ⊢
        exact ih h

theorem lookup_append_single_some {α : Type} (l : List (Nat × α)) (k k' : Nat) (v : α)
    (w : α) (h : lookup l k' = some w) : lookup (l ++ [(k, v)]) k' = some w := by
  induction l with
  | nil => simp [lookup] at h
  | cons p t ih =>
    cases p with
    | mk a b =>
      rw [lookup_cons] at h
      rw [List.cons_append, lookup_cons]
      by_cases hak : a = k'
      · rw [if_pos hak] at h ⊢
        exact h
      · rw [if_neg hak] at h ⊢
        exact ih h

theorem lookup_map_replace {α : Type} (l : List (Nat × α)) (k k' : Nat) (v : α) :
    lookup (l.map (fun p => if p.1 = k then (k, v) else p)) k' =
      if k = k' then (lookup l k).map (fun _ => v) else lookup l k' := by
  induction l with
  | nil => by_cases hkk : k = k' <;> simp [lookup, hkk]
  | cons p t ih =>
    cases p with
    | mk a b =>
      rw [List.map_cons]
      by_cases hak : a = k
      · have hhead : (if (a, b).1 = k then (k, v) else (a, b)) = (k, v) := by simp [hak]
        rw [hhead, lookup_cons, lookup_cons, lookup_cons]
        by_cases hkk : k = k'
        · simp [hkk, hak, hak.trans hkk]
        · have hak' : ¬(a = k') := fun hh => hkk (hak ▸ hh)
          rw [if_neg hkk, if_neg hkk, if_neg hak', ih, if_neg hkk]
      · have hhead : (if (a, b).1 = k then (k, v) else (a, b)) = (a, b) := by simp [hak]
        rw [hhead, lookup_cons, lookup_cons, lookup_cons]
        by_cases hkk : k = k'
        · have hak' : ¬(a = k') := fun hh => hak (hh.trans hkk.symm)
          rw [if_neg hak', if_pos hkk, if_neg hak, ih, if_pos hkk]
        · by_cases hak' : a = k'
          · rw [if_pos hak', if_neg hkk, if_pos hak']
          · rw [if_neg hak', if_neg hkk, if_neg hak', ih, if_neg hkk]

theorem lookup_none_of_find?_none {α : Type} (l : List (Nat × α)) (k : Nat)
    (h : ¬(l.find? (fun p => decide (p.1 = k))).isSome = true) : lookup l k = none := by
  unfold lookup
  cases hf : l.find? (fun p => decide (p.1 = k)) with
  | none => rfl
  | some x => rw [hf] at h; simp at h

theorem lookup_setKey_self {α : Type} (l : List (Nat × α)) (k : Nat) (v : α) :
    lookup (setKey l k v) k = some v := by
  unfold setKey
  by_cases h : (l.find? (fun p => decide (p.1 = k))).isSome
  · rw [if_pos h, lookup_map_replace, if_pos rfl]
    rcases Option.isSome_iff_exists.mp h with ⟨p, hp⟩
    unfold lookup
    rw [hp]
    rfl
  · rw [if_neg h, lookup_append_single_none _ _ _ _ (lookup_none_of_find?_none _ _ h),
      if_pos rfl]

theorem lookup_setKey_ne {α : Type} (l : List (Nat × α)) (k k' : Nat) (v : α)
    (h : k' ≠ k) : lookup (setKey l k v) k' = lookup l k' := by
  unfold setKey
  by_cases hf : (l.find? (fun p => decide (p.1 = k))).isSome
  · rw [if_pos hf, lookup_map_replace, if_neg (fun hh => h hh.symm)]
  · rw [if_neg hf]
    cases hl : lookup l k' with
    | none => rw [lookup_append_single_none _ _ _ _ hl, if_neg (fun hh => h hh.symm)]
    | some w => exact lookup_append_single_some _ _ _ _ _ hl

/-! ## C10: timed-allow on an already-allowed subject -/

/-- C10: `startTimedAllow` on a subject whose block rule is already in the
allowing (`disabled`) state issues no firewall patch, no apply call and no
wireless unblock — the rule set is returned unchanged and the trace is just
the audit entry — while the Timer record is still created with
`endTime = now + minutes` (in milliseconds). -/
theorem c10_timed_allow_frame (tracker minutes : Nat) (name : String)
    (timers : List (Nat × TimerRec)) (rules : List Rule) (now : Instant)
    (r : Rule) (h1 : 1 ≤ minutes) (h2 : minutes ≤ 120)
    (hr : findRule rules tracker = some r) (hd : r.disabled = true) :
    timedAllow tracker minutes name timers rules now =
      Except.ok ⟨setKey timers tracker ⟨now.ms + minutes * 60000, name⟩, rules,
                 [Event.log "timed-allow"], now.ms + minutes * 60000⟩
    ∧ lookup (setKey timers tracker
        (⟨now.ms + minutes * 60000, name⟩ : TimerRec)) tracker =
      some ⟨now.ms + minutes * 60000, name⟩ := by
  constructor
  · unfold timedAllow
    rw [if_neg (by omega), hr]
    simp [hd]
  · exact lookup_setKey_self _ _ _

/-- Witness for C10 at a concrete input. -/
theorem c10_timed_allow_frame_witness :
    timedAllow 5 30 "kidA" [] [⟨1, 5, true⟩] ⟨1, 600, 0⟩ =
      Except.ok ⟨[(5, ⟨124200000, "kidA"⟩)], [⟨1, 5, true⟩],
                 [Event.log "timed-allow"], 124200000⟩ := by
  have h := c10_timed_allow_frame 5 30 "kidA" [] [⟨1, 5, true⟩] ⟨1, 600, 0⟩
    ⟨1, 5, true⟩ (by decide) (by decide) (by decide) (by decide)
  exact h.1

/-! ## C9: cancel-timer with no active timer still re-blocks -/

/-- C9: a cancel-timer request for a subject with no Timer record still
invokes the re-block path: when the subject is currently allowed
(`rule.disabled = true`) and not inside an active, non-skipped schedule
window, the rule is patched to its blocking value, apply is issued,
connections are killed and wireless devices are blocked. -/
theorem c9_cancel_timer_blocks (tracker : Nat) (timers : List (Nat × TimerRec))
    (skips : List (Nat × Nat)) (schedules : List (Nat × ScheduleCfg))
    (rules : List Rule) (now : Instant) (r : Rule)
    (hnt : lookup timers tracker = none)
    (hr : findRule rules tracker = some r) (hd : r.disabled = true)
    (hns : ((computeScheduleInfo (lookup schedules tracker) now).enabled
        && (computeScheduleInfo (lookup schedules tracker) now).active
        && !(skipActiveAt skips tracker now.ms)) = false) :
    cancelTimer tracker timers skips schedules rules now =
      ⟨removeKey timers tracker, patchById rules r.id false,
       [Event.patchRule r.id false, Event.applyFirewall, Event.killStates tracker,
        Event.unifiBlock tracker, Event.log "timer-expired",
        Event.notif "Timer Expired"]⟩ := by
  simp only [cancelTimer, blockKidNow, hnt, hns, hr, hd]
  simp

/-- Witness for C9 at a concrete input (no timer, rule allowing, schedule
window closed at Monday 18:00). -/
theorem c9_cancel_timer_blocks_witness :
    cancelTimer 5 [] [] [(5, ⟨true, [⟨[1], (8, 0), (17, 0)⟩]⟩)] [⟨1, 5, true⟩] ⟨1, 1080, 0⟩ =
      ⟨[], [⟨1, 5, false⟩],
       [Event.patchRule 1 false, Event.applyFirewall, Event.killStates 5,
        Event.unifiBlock 5, Event.log "timer-expired", Event.notif "Timer Expired"]⟩ := by
  have h := c9_cancel_timer_blocks 5 [] [] [(5, ⟨true, [⟨[1], (8, 0), (17, 0)⟩]⟩)]
    [⟨1, 5, true⟩] ⟨1, 1080, 0⟩ ⟨1, 5, true⟩ (by decide) (by decide) (by decide) (by decide)
  exact h.trans (by decide)

/-! ## C6: firing semantics of the timed-allow deferred action -/

/-- C6 counterexample: a timer fires for a subject that is outside any
active window and whose rule is already in the blocking state
(`disabled = false`): `blockKidNow` produces an empty trace — no patch, no
apply, no kill, no wireless block, and in particular no `timer-expired`
audit entry — contradicting the claim that in the non-active case the
subject is driven to blocked and a timer-expired transition is recorded. -/
theorem c6_counterexample :
    (blockKidNow 5 [] [] [] [⟨1, 5, false⟩] ⟨1, 600, 0⟩).trace = []
    ∧ (computeScheduleInfo (lookup ([] : List (Nat × ScheduleCfg)) 5) ⟨1, 600, 0⟩).active = false
    ∧ findRule [⟨1, 5, false⟩] 5 = some ⟨1, 5, false⟩
    ∧ (blockKidNow 5 [] [] [] [⟨1, 5, false⟩] ⟨1, 600, 0⟩).rules = [⟨1, 5, false⟩] := by
  decide

/-- C6 amended: when the deferred action fires, the Timer record is removed
first in every case; if the schedule is enabled, active and not skipped the
subject is not re-blocked and a timer-expired audit entry is recorded;
otherwise, **if the fetched rule exists and is currently in the allowing
state**, the subject is driven to blocked (patch, apply, kills, wireless
block) with a timer-expired record; if the rule is already blocking or not
found, nothing is patched and nothing is recorded. -/
theorem c6_amended_timer_fire (tracker : Nat) (timers : List (Nat × TimerRec))
    (skips : List (Nat × Nat)) (schedules : List (Nat × ScheduleCfg))
    (rules : List Rule) (now : Instant) :
    (blockKidNow tracker timers skips schedules rules now).timers = removeKey timers tracker
    ∧ (((computeScheduleInfo (lookup schedules tracker) now).enabled
        && (computeScheduleInfo (lookup schedules tracker) now).active
        && !(skipActiveAt skips tracker now.ms)) = true →
       blockKidNow tracker timers skips schedules rules now =
         ⟨removeKey timers tracker, rules, [Event.log "timer-expired"]⟩)
    ∧ (((computeScheduleInfo (lookup schedules tracker) now).enabled
        && (computeScheduleInfo (lookup schedules tracker) now).active
        && !(skipActiveAt skips tracker now.ms)) = false →
       ∀ r : Rule, findRule rules tracker = some r →
       (r.disabled = true →
         blockKidNow tracker timers skips schedules rules now =
           ⟨removeKey timers tracker, patchById rules r.id false,
            [Event.patchRule r.id false, Event.applyFirewall, Event.killStates tracker,
             Event.unifiBlock tracker, Event.log "timer-expired",
             Event.notif "Timer Expired"]⟩)
       ∧ (r.disabled = false →
         blockKidNow tracker timers skips schedules rules now =
           ⟨removeKey timers tracker, rules, []⟩))
    ∧ (((computeScheduleInfo (lookup schedules tracker) now).enabled
        && (computeScheduleInfo (lookup schedules tracker) now).active
        && !(skipActiveAt skips tracker now.ms)) = false →
       findRule rules tracker = none →
       blockKidNow tracker timers skips schedules rules now =
         ⟨removeKey timers tracker, rules, []⟩) := by
  refine ⟨?_, ?_, ?_, ?_⟩
  · by_cases hcond : ((computeScheduleInfo (lookup schedules tracker) now).enabled
        && (computeScheduleInfo (lookup schedules tracker) now).active
        && !(skipActiveAt skips tracker now.ms)) = true
    · simp [blockKidNow, hcond]
    · have hcond' := Bool.not_eq_true _ ▸ hcond
      cases hf : findRule rules tracker with
      | none => simp [blockKidNow, hcond', hf]
      | some r => by_cases hd : r.disabled <;> simp [blockKidNow, hcond', hf, hd]
  · intro hcond
    simp [blockKidNow, hcond]
  · intro hcond r hr
    constructor <;> intro hd <;> simp [blockKidNow, hcond, hr, hd]
  · intro hcond hr
    simp [blockKidNow, hcond, hr]

/-- Witness for the amended C6, exercising the active-window branch. -/
theorem c6_amended_timer_fire_witness :
    blockKidNow 5 [(5, ⟨147600000, "kidA"⟩)] [] [(5, ⟨true, [⟨[1], (8, 0), (17, 0)⟩]⟩)]
      [⟨1, 5, true⟩] ⟨1, 600, 0⟩ = ⟨[], [⟨1, 5, true⟩], [Event.log "timer-expired"]⟩ := by
  have h := (c6_amended_timer_fire 5 [(5, ⟨147600000, "kidA"⟩)] []
    [(5, ⟨true, [⟨[1], (8, 0), (17, 0)⟩]⟩)] [⟨1, 5, true⟩] ⟨1, 600, 0⟩).2.1 (by decide)
  exact h.trans (by decide)

/-! ## C1: per-subject precedence in the reconciliation tick -/

/-- C1 counterexample: a subject with no Timer, an active Skip
(`now < until`), a **disabled** schedule and an allowing rule.  The claim
orders the Skip above the schedule-disabled case, so it requires the desired
state to be blocked — which, the actual rule being in the allowed state,
would force a correction.  The loop body instead takes no action at all
(`kidStep = none`, and `runKids` leaves world and trace untouched): the
schedule-disabled check precedes the skip check in the code. -/
theorem c1_counterexample :
    kidStep [⟨1, 5, true⟩] [] [(5, 999999999999)]
      [(5, ⟨false, [⟨[1], (8, 0), (17, 0)⟩]⟩)] ⟨1, 600, 0⟩ ⟨5, "kidA"⟩ = none
    ∧ lookup ([] : List (Nat × TimerRec)) 5 = none
    ∧ skipActiveAt [(5, 999999999999)] 5 (Instant.ms ⟨1, 600, 0⟩) = true
    ∧ findRule [⟨1, 5, true⟩] 5 = some ⟨1, 5, true⟩
    ∧ (⟨1, 5, true⟩ : Rule).disabled = true
    ∧ runKids [⟨1, 5, true⟩] [] [(5, 999999999999)]
        [(5, ⟨false, [⟨[1], (8, 0), (17, 0)⟩]⟩)] ⟨1, 600, 0⟩ [⟨5, "kidA"⟩] [⟨1, 5, true⟩]
      = ⟨[⟨1, 5, true⟩], [], false, []⟩ := by
  decide

/-- C1 amended: per subject and tick, with the schedule-disabled case taking
precedence over the Skip: an active Timer means no action; a disabled (or
missing) schedule means no action; otherwise an active Skip forces desired =
blocked even when the schedule window is active; otherwise desired equals
the evaluator's `active` output.  The loop body realises exactly the
correction `desired ≠ actual` on the fetched rule. -/
theorem c1_amended_precedence (snapshot : List Rule) (timers : List (Nat × TimerRec))
    (skips : List (Nat × Nat)) (schedules : List (Nat × ScheduleCfg))
    (now : Instant) (kid : KidConfig) :
    kidStep snapshot timers skips schedules now kid =
      (match desiredOf timers skips schedules now kid.tracker,
             findRule snapshot kid.tracker with
       | some d, some r => if r.disabled = d then none else some (r, d)
       | _, _ => none)
    ∧ ((lookup timers kid.tracker).isSome = true →
        desiredOf timers skips schedules now kid.tracker = none)
    ∧ ((computeScheduleInfo (lookup schedules kid.tracker) now).enabled = false →
        desiredOf timers skips schedules now kid.tracker = none)
    ∧ (lookup timers kid.tracker = none →
        (computeScheduleInfo (lookup schedules kid.tracker) now).enabled = true →
        skipActiveAt skips kid.tracker now.ms = true →
        desiredOf timers skips schedules now kid.tracker = some false)
    ∧ (lookup timers kid.tracker = none →
        (computeScheduleInfo (lookup schedules kid.tracker) now).enabled = true →
        skipActiveAt skips kid.tracker now.ms = false →
        desiredOf timers skips schedules now kid.tracker =
          some (computeScheduleInfo (lookup schedules kid.tracker) now).active)
    ∧ (∀ rest world, kidStep snapshot timers skips schedules now kid = none →
        runKids snapshot timers skips schedules now (kid :: rest) world =
          runKids snapshot timers skips schedules now rest world) := by
  refine ⟨?_, ?_, ?_, ?_, ?_, ?_⟩
  · by_cases ht : (lookup timers kid.tracker).isSome
    · simp [kidStep, desiredOf, ht]
    · by_cases he : (computeScheduleInfo (lookup schedules kid.tracker) now).enabled = false
      · simp [kidStep, desiredOf, ht, he]
      · cases hf : findRule snapshot kid.tracker with
        | none => simp [kidStep, desiredOf, ht, he, hf]
        | some r =>
          simp only [kidStep, desiredOf, ht, he, hf, if_false, Bool.false_eq_true]
          cases hsb : ((computeScheduleInfo (lookup schedules kid.tracker) now).active
              && !(skipActiveAt skips kid.tracker now.ms)) <;>
            cases hd : r.disabled <;> simp [hsb, hd]
  · intro ht
    simp [desiredOf, ht]
  · intro he
    by_cases ht : (lookup timers kid.tracker).isSome <;> simp [desiredOf, ht, he]
  · intro ht he hs
    simp [desiredOf, ht, he, hs]
  · intro ht he hs
    simp [desiredOf, ht, he, hs]
  · intro rest world hnone
    simp [runKids, hnone]

/-- Witness for the amended C1: the skip-forces-blocked case at a concrete
input (enabled active schedule, active skip, allowing rule). -/
theorem c1_amended_precedence_witness :
    desiredOf [] [(5, 999999999999)] [(5, ⟨true, [⟨[1], (8, 0), (17, 0)⟩]⟩)]
      ⟨1, 600, 0⟩ 5 = some false
    ∧ kidStep [⟨1, 5, true⟩] [] [(5, 999999999999)]
        [(5, ⟨true, [⟨[1], (8, 0), (17, 0)⟩]⟩)] ⟨1, 600, 0⟩ ⟨5, "kidA"⟩
      = some (⟨1, 5, true⟩, false) := by
  have h := c1_amended_precedence [⟨1, 5, true⟩] [] [(5, 999999999999)]
    [(5, ⟨true, [⟨[1], (8, 0), (17, 0)⟩]⟩)] ⟨1, 600, 0⟩ ⟨5, "kidA"⟩
  refine ⟨h.2.2.2.1 (by decide) (by decide) (by decide), ?_⟩
  refine h.1.trans ?_
  rw [h.2.2.2.1 (by decide) (by decide) (by decide)]
  decide

/-! ## C3: deferral of apply and downstream effects -/

/-- Events the loop body itself may emit (patches, logs, notifications and
the inline wireless unblock). -/
def isLoopEv : Event → Bool
  | Event.patchRule _ _ => true
  | Event.log _ => true
  | Event.notif _ => true
  | Event.unifiUnblock _ => true
  | _ => false

theorem runKids_trace_loopEv (snapshot : List Rule) (timers : List (Nat × TimerRec))
    (skips : List (Nat × Nat)) (schedules : List (Nat × ScheduleCfg)) (now : Instant) :
    ∀ (kids : List KidConfig) (world : List Rule),
      ∀ e ∈ (runKids snapshot timers skips schedules now kids world).trace,
        isLoopEv e = true := by
  intro kids
  induction kids with
  | nil => intro world e he; simp [runKids] at he
  | cons kid rest ih =>
    intro world e he
    unfold runKids at he
    cases hstep : kidStep snapshot timers skips schedules now kid with
    | none =>
      rw [hstep] at he
      exact ih world e he
    | some rd =>
      rcases rd with ⟨r, d⟩
      cases d <;> rw [hstep] at he <;> simp only [List.mem_cons] at he <;>
        rcases he with h | h | h | hrest
      · exact h ▸ rfl
      · exact h ▸ rfl
      · exact h ▸ rfl
      · exact ih _ e hrest
      · exact h ▸ rfl
      · exact h ▸ rfl
      · exact h ▸ rfl
      · rcases hrest with h | hrest
        · exact h ▸ rfl
        · exact ih _ e hrest

theorem toKill_events (l : List Nat) :
    ∀ e ∈ l.flatMap (fun t => [Event.killStates t, Event.unifiBlock t]),
      isKillOrBlock e = true ∧ isApplyEv e = false ∧ isUnblockEv e = false := by
  intro e he
  rcases List.mem_flatMap.mp he with ⟨t, _, hm⟩
  simp only [List.mem_cons, List.mem_singleton] at hm
  rcases hm with h | h | h
  · exact h ▸ ⟨rfl, rfl, rfl⟩
  · exact h ▸ ⟨rfl, rfl, rfl⟩
  · simp at h

theorem loopEv_not_apply {e : Event} (h : isLoopEv e = true) :
    isApplyEv e = false ∧ isKillOrBlock e = false := by
  cases e <;> simp_all [isLoopEv, isApplyEv, isKillOrBlock]

theorem takeWhile_append_all {α : Type} (p : α → Bool) (l1 l2 : List α) (x : α)
    (h1 : ∀ e ∈ l1, p e = true) (hx : p x = false) :
    (l1 ++ x :: l2).takeWhile p = l1 := by
  induction l1 with
  | nil => simp [List.takeWhile, hx]
  | cons a t ih =>
    rw [List.cons_append]
    have ha : p a = true := h1 a (List.mem_cons_self a t)
    simp [List.takeWhile_cons, ha, ih (fun e he => h1 e (List.mem_cons_of_mem a he))]

theorem dropWhile_append_all {α : Type} (p : α → Bool) (l1 l2 : List α) (x : α)
    (h1 : ∀ e ∈ l1, p e = true) (hx : p x = false) :
    (l1 ++ x :: l2).dropWhile p = x :: l2 := by
  induction l1 with
  | nil => simp [List.dropWhile, hx]
  | cons a t ih =>
    rw [List.cons_append]
    have ha : p a = true := h1 a (List.mem_cons_self a t)
    simp only [List.dropWhile_cons, ha]
    exact ih (fun e he => h1 e (List.mem_cons_of_mem a he))

theorem takeWhile_all {α : Type} (p : α → Bool) (l : List α)
    (h : ∀ e ∈ l, p e = true) : l.takeWhile p = l := by
  induction l with
  | nil => rfl
  | cons a t ih =>
    simp [List.takeWhile_cons, h a (List.mem_cons_self a t),
      ih (fun e he => h e (List.mem_cons_of_mem a he))]

theorem dropWhile_all {α : Type} (p : α → Bool) (l : List α)
    (h : ∀ e ∈ l, p e = true) : l.dropWhile p = [] := by
  induction l with
  | nil => rfl
  | cons a t ih =>
    simp only [List.dropWhile_cons, h a (List.mem_cons_self a t)]
    exact ih (fun e he => h e (List.mem_cons_of_mem a he))

theorem filter_eq_nil_of_all {α : Type} (p : α → Bool) (l : List α)
    (h : ∀ e ∈ l, p e = false) : l.filter p = [] := by
  induction l with
  | nil => rfl
  | cons a t ih =>
    simp only [List.filter_cons, h a (List.mem_cons_self a t)]
    exact ih (fun e he => h e (List.mem_cons_of_mem a he))

/-- C3 counterexample: one subject becomes allowed during a tick.  The
trace is `patch, log, notify, wireless-unblock, apply`: the wireless
unblock — a downstream side effect in the claim's enumeration — is issued
**inside** the batch loop, before the shared apply call, refuting "all
downstream side effects ... are deferred until after the per-subject
correction batch loop completes". -/
theorem c3_counterexample :
    (enforceSchedules [⟨5, "kidA"⟩] [⟨1, 5, false⟩] [] []
        [(5, ⟨true, [⟨[1], (8, 0), (17, 0)⟩]⟩)] ⟨1, 600, 0⟩).trace =
      [Event.patchRule 1 true, Event.log "schedule-allow", Event.notif "Schedule",
       Event.unifiUnblock 5, Event.applyFirewall]
    ∧ (((enforceSchedules [⟨5, "kidA"⟩] [⟨1, 5, false⟩] [] []
          [(5, ⟨true, [⟨[1], (8, 0), (17, 0)⟩]⟩)] ⟨1, 600, 0⟩).trace.takeWhile
            (fun e => !isApplyEv e)).filter isDeferredEffect) = [Event.unifiUnblock 5] := by
  decide

/-- C3 amended: in every tick at most one apply call is issued, and the
connection kills and wireless **blocks** are all deferred until after the
apply (hence after the batch loop); wireless **unblocks** for subjects that
became allowed are issued inline during the loop, before the apply. -/
theorem enforce_trace_shape (kids : List KidConfig) (rules : List Rule)
    (timers : List (Nat × TimerRec)) (skips : List (Nat × Nat))
    (schedules : List (Nat × ScheduleCfg)) (now : Instant) :
    (enforceSchedules kids rules timers skips schedules now).trace =
        (runKids rules timers (skips.filter (fun p => decide (now.ms < p.2)))
          schedules now kids rules).trace
    ∨ (enforceSchedules kids rules timers skips schedules now).trace =
        (runKids rules timers (skips.filter (fun p => decide (now.ms < p.2)))
          schedules now kids rules).trace
        ++ Event.applyFirewall
          :: (runKids rules timers (skips.filter (fun p => decide (now.ms < p.2)))
              schedules now kids rules).toKill.flatMap
            (fun t => [Event.killStates t, Event.unifiBlock t]) := by
  unfold enforceSchedules
  by_cases h : (runKids rules timers (skips.filter (fun p => decide (now.ms < p.2)))
      schedules now kids rules).needsApply
  · right
    simp [h]
  · left
    simp [h]

theorem c3_amended_single_apply (kids : List KidConfig) (rules : List Rule)
    (timers : List (Nat × TimerRec)) (skips : List (Nat × Nat))
    (schedules : List (Nat × ScheduleCfg)) (now : Instant) :
    ((enforceSchedules kids rules timers skips schedules now).trace.filter isApplyEv).length ≤ 1
    ∧ (((enforceSchedules kids rules timers skips schedules now).trace.takeWhile
          (fun e => !isApplyEv e)).filter isKillOrBlock) = []
    ∧ (((enforceSchedules kids rules timers skips schedules now).trace.dropWhile
          (fun e => !isApplyEv e)).filter isUnblockEv) = [] := by
  have htr : ∀ e ∈ (runKids rules timers (skips.filter (fun p => decide (now.ms < p.2)))
      schedules now kids rules).trace, isLoopEv e = true :=
    fun e he => runKids_trace_loopEv rules timers _ schedules now kids rules e he
  have hpre : ∀ e ∈ (runKids rules timers (skips.filter (fun p => decide (now.ms < p.2)))
      schedules now kids rules).trace, (fun e => !isApplyEv e) e = true := by
    intro e he
    simp [(loopEv_not_apply (htr e he)).1]
  rcases enforce_trace_shape kids rules timers skips schedules now with h | h <;> rw [h]
  · refine ⟨?_, ?_, ?_⟩
    · rw [filter_eq_nil_of_all _ _ (fun e he => (loopEv_not_apply (htr e he)).1)]
      simp
    · rw [takeWhile_all _ _ hpre]
      exact filter_eq_nil_of_all _ _ (fun e he => (loopEv_not_apply (htr e he)).2)
    · rw [dropWhile_all _ _ hpre]
      rfl
  · refine ⟨?_, ?_, ?_⟩
    · rw [List.filter_append,
        filter_eq_nil_of_all _ _ (fun e he => (loopEv_not_apply (htr e he)).1),
        List.filter_cons]
      rw [filter_eq_nil_of_all _ _ (fun e he => (toKill_events _ e he).2.1)]
      simp [isApplyEv]
    · rw [takeWhile_append_all (fun e => !isApplyEv e) _ _ _ hpre (by simp [isApplyEv])]
      exact filter_eq_nil_of_all _ _ (fun e he => (loopEv_not_apply (htr e he)).2)
    · rw [dropWhile_append_all (fun e => !isApplyEv e) _ _ _ hpre (by simp [isApplyEv]),
        List.filter_cons]
      rw [filter_eq_nil_of_all _ _ (fun e he => (toKill_events _ e he).2.2)]
      simp [isUnblockEv]

/-! ## C8: known-device-set monotonicity and full-set blocking -/

theorem mem_setAdd {s : List String} {x m : String} :
    m ∈ setAdd s x ↔ m ∈ s ∨ m = x := by
  unfold setAdd
  by_cases h : s.contains x = true
  · have hx : x ∈ s := by simpa using h
    simp only [h, if_true]
    constructor
    · exact fun hm => Or.inl hm
    · rintro (hm | hm)
      · exact hm
      · exact hm ▸ hx
  · simp only [h]
    simp [List.mem_append]

theorem mem_foldl_setAdd {l : List String} {s : List String} {m : String} :
    m ∈ l.foldl setAdd s ↔ m ∈ s ∨ m ∈ l := by
  induction l generalizing s with
  | nil => simp
  | cons x t ih =>
    rw [List.foldl_cons, ih, mem_setAdd]
    constructor
    · rintro ((h | h) | h)
      · exact Or.inl h
      · exact Or.inr (h ▸ List.mem_cons_self x t)
      · exact Or.inr (List.mem_cons_of_mem x h)
    · rintro (h | h)
      · exact Or.inl (Or.inl h)
      · rcases List.mem_cons.mp h with h | h
        · exact Or.inl (Or.inr h)
        · exact Or.inr h

theorem learnMacs_lookup (excluded : List String) (known : List (Nat × List String))
    (tracker : Nat) (macs : List String) (t : Nat) :
    (lookup (learnMacs excluded known tracker macs) t).getD [] = (lookup known t).getD []
    ∨ (t = tracker
       ∧ (lookup (learnMacs excluded known tracker macs) t).getD [] =
         (macs.filter (fun m => !excluded.contains m.toLower)).foldl setAdd
           ((lookup known tracker).getD [])) := by
  simp only [learnMacs]
  by_cases hf : macs.filter (fun m => !excluded.contains m.toLower) = []
  · left
    rw [if_pos hf]
  · by_cases ht : t = tracker
    · right
      refine ⟨ht, ?_⟩
      rw [if_neg hf, ht, lookup_setKey_self]
      rfl
    · left
      rw [if_neg hf, lookup_setKey_ne _ _ _ _ ht]

theorem learnMacs_mono (excluded : List String) (known : List (Nat × List String))
    (tracker : Nat) (macs : List String) (t : Nat) (m : String)
    (hm : m ∈ (lookup known t).getD []) :
    m ∈ (lookup (learnMacs excluded known tracker macs) t).getD [] := by
  rcases learnMacs_lookup excluded known tracker macs t with h | ⟨ht, h⟩
  · exact h ▸ hm
  · rw [h, mem_foldl_setAdd]
    exact Or.inl (ht ▸ hm)

theorem learnMacs_no_excluded (excluded : List String) (known : List (Nat × List String))
    (tracker : Nat) (macs : List String) (m : String)
    (hexc : excluded.contains m.toLower = true)
    (hm : m ∈ (lookup (learnMacs excluded known tracker macs) tracker).getD []) :
    m ∈ (lookup known tracker).getD [] := by
  rcases learnMacs_lookup excluded known tracker macs tracker with h | ⟨_, h⟩
  · exact h ▸ hm
  · rw [h, mem_foldl_setAdd] at hm
    rcases hm with hm | hm
    · exact hm
    · have := List.of_mem_filter hm
      rw [hexc] at this
      simp at this

theorem unifiBlockKid_known (configured : Bool) (excluded : List String)
    (known blocked : List (Nat × List String)) (tracker : Nat)
    (ips : List String) (clientsOk : Bool) (clients : List Client)
    (blockOk : String → Bool) :
    (unifiBlockKid configured excluded known blocked tracker ips clientsOk clients
        blockOk).known = known
    ∨ (unifiBlockKid configured excluded known blocked tracker ips clientsOk clients
        blockOk).known =
      learnMacs excluded known tracker
        (ips.filterMap (fun ip => (clients.find? (fun c => c.ip == ip)).map Client.mac)) := by
  simp only [unifiBlockKid]
  by_cases hc : configured = false
  · rw [if_pos hc]
    exact Or.inl rfl
  · rw [if_neg hc]
    by_cases hi : ips = []
    · rw [if_pos hi]
      exact Or.inl rfl
    · rw [if_neg hi]
      cases clientsOk with
      | false =>
        left
        split
        · rename_i h
          exact absurd h (by simp)
        · split <;> rfl
      | true =>
        right
        split
        · split <;> rfl
        · rename_i h
          exact absurd rfl h

theorem unifiBlockKid_blockCmds (excluded : List String)
    (known blocked : List (Nat × List String)) (tracker : Nat)
    (ips : List String) (clientsOk : Bool) (clients : List Client)
    (blockOk : String → Bool) (hi : ips ≠ []) :
    (unifiBlockKid true excluded known blocked tracker ips clientsOk clients
        blockOk).blockCmds =
      ((lookup (unifiBlockKid true excluded known blocked tracker ips clientsOk clients
          blockOk).known tracker).getD []).filter
        (fun m => !excluded.contains m.toLower) := by
  simp only [unifiBlockKid]
  rw [if_neg (by simp), if_neg hi]
  cases clientsOk with
  | false =>
    split
    · rename_i h
      exact absurd h (by simp)
    · split
      · rename_i hall
        exact hall.symm
      · rfl
  | true =>
    split
    · split
      · rename_i hall
        exact hall.symm
      · rfl
    · rename_i h
      exact absurd rfl h

/-- C8: (i) `learnMacs` never removes a MAC from any kid's KnownDeviceSet;
(ii) neither does `unifiBlockKid`; (iii) on a block transition that
reaches the wireless step (UniFi configured, source resolved) a block
command is issued for exactly every identifier in the post-learn
KnownDeviceSet minus the exclusion list — not only currently-associated
ones; (iv) an exclusion-listed identifier is never added by `learnMacs`. -/
theorem c8_known_macs_monotone (excluded : List String)
    (known blocked : List (Nat × List String)) (tracker : Nat) (macs : List String)
    (configured : Bool) (ips : List String) (clientsOk : Bool) (clients : List Client)
    (blockOk : String → Bool) :
    (∀ t m, m ∈ (lookup known t).getD [] →
      m ∈ (lookup (learnMacs excluded known tracker macs) t).getD [])
    ∧ (∀ t m, m ∈ (lookup known t).getD [] →
        m ∈ (lookup (unifiBlockKid configured excluded known blocked tracker ips
              clientsOk clients blockOk).known t).getD [])
    ∧ (configured = true → ips ≠ [] →
        (unifiBlockKid configured excluded known blocked tracker ips clientsOk clients
            blockOk).blockCmds =
          ((lookup (unifiBlockKid configured excluded known blocked tracker ips clientsOk
              clients blockOk).known tracker).getD []).filter
            (fun m => !excluded.contains m.toLower))
    ∧ (∀ m, excluded.contains m.toLower = true →
        m ∈ (lookup (learnMacs excluded known tracker macs) tracker).getD [] →
        m ∈ (lookup known tracker).getD []) := by
  refine ⟨fun t m hm => learnMacs_mono excluded known tracker macs t m hm, ?_, ?_,
    fun m hexc hm => learnMacs_no_excluded excluded known tracker macs m hexc hm⟩
  · intro t m hm
    rcases unifiBlockKid_known configured excluded known blocked tracker ips clientsOk
        clients blockOk with h | h
    · rw [h]
      exact hm
    · rw [h]
      exact learnMacs_mono excluded known tracker _ t m hm
  · intro hc hi
    subst hc
    exact unifiBlockKid_blockCmds excluded known blocked tracker ips clientsOk clients
      blockOk hi

/-- Witness for C8 at a concrete input: one previously known MAC, UniFi
configured, source resolved, client query failed — the block command list
is still the full known set minus exclusions. -/
theorem c8_known_macs_monotone_witness :
    (unifiBlockKid true [] [(5, ["m1"])] [] 5 ["10.0.0.2"] false [] (fun _ => true)).blockCmds =
      ((lookup (unifiBlockKid true [] [(5, ["m1"])] [] 5 ["10.0.0.2"] false []
          (fun _ => true)).known 5).getD []).filter
        (fun m => !([] : List String).contains m.toLower) := by
  exact (c8_known_macs_monotone [] [(5, ["m1"])] [] 5 [] true ["10.0.0.2"] false []
    (fun _ => true)).2.2.1 rfl (by simp)

/-! ## Schedule evaluator lemmas (C4, C5, C7) -/

theorem windowEndLoop_none_iff (day today nowMin : Nat) :
    ∀ (l : List Window) (acc : Option Nat),
      (windowEndLoop day today nowMin l acc = none ↔
        acc = none ∧ ∀ w ∈ l, ¬activeMatch today nowMin w) := by
  intro l
  induction l with
  | nil =>
    intro acc
    simp [windowEndLoop]
  | cons w t ih =>
    intro acc
    by_cases h1 : today ∈ w.days
    · by_cases h2 : timeToMinutes w.start ≤ nowMin ∧ nowMin < timeToMinutes w.endT
      · have hmatch : activeMatch today nowMin w := ⟨h1, h2.1, h2.2⟩
        cases acc with
        | none =>
          simp only [windowEndLoop, if_pos h1, if_pos h2]
          rw [ih]
          simp [hmatch]
        | some prev =>
          simp only [windowEndLoop, if_pos h1, if_pos h2]
          constructor
          · intro hr
            by_cases h3 : dayMs day (timeToMinutes w.endT) > prev
            · rw [if_pos h3, ih] at hr
              exact absurd hr.1 (by simp)
            · rw [if_neg h3, ih] at hr
              exact absurd hr.1 (by simp)
          · rintro ⟨h, _⟩
            exact absurd h (by simp)
      · have hnm : ¬activeMatch today nowMin w := fun hm => h2 ⟨hm.2.1, hm.2.2⟩
        simp only [windowEndLoop, if_pos h1, if_neg h2]
        rw [ih]
        simp [hnm]
    · have hnm : ¬activeMatch today nowMin w := fun hm => h1 hm.1
      simp only [windowEndLoop, if_neg h1]
      rw [ih]
      simp [hnm]

theorem windowEndLoop_some_origin (day today nowMin : Nat) :
    ∀ (l : List Window) (acc : Option Nat) (e : Nat),
      windowEndLoop day today nowMin l acc = some e →
      acc = some e ∨ ∃ w ∈ l, activeMatch today nowMin w
        ∧ e = dayMs day (timeToMinutes w.endT) := by
  intro l
  induction l with
  | nil =>
    intro acc e hr
    exact Or.inl hr
  | cons w t ih =>
    intro acc e hr
    by_cases h1 : today ∈ w.days
    · by_cases h2 : timeToMinutes w.start ≤ nowMin ∧ nowMin < timeToMinutes w.endT
      · have hmatch : activeMatch today nowMin w := ⟨h1, h2.1, h2.2⟩
        cases acc with
        | none =>
          simp only [windowEndLoop, if_pos h1, if_pos h2] at hr
          rcases ih _ _ hr with h | ⟨w', hw', hm', he'⟩
          · exact Or.inr ⟨w, List.mem_cons_self w t, hmatch, (Option.some_inj.mp h).symm⟩
          · exact Or.inr ⟨w', List.mem_cons_of_mem w hw', hm', he'⟩
        | some prev =>
          simp only [windowEndLoop, if_pos h1, if_pos h2] at hr
          by_cases h3 : dayMs day (timeToMinutes w.endT) > prev
          · rw [if_pos h3] at hr
            rcases ih _ _ hr with h | ⟨w', hw', hm', he'⟩
            · exact Or.inr ⟨w, List.mem_cons_self w t, hmatch, (Option.some_inj.mp h).symm⟩
            · exact Or.inr ⟨w', List.mem_cons_of_mem w hw', hm', he'⟩
          · rw [if_neg h3] at hr
            rcases ih _ _ hr with h | ⟨w', hw', hm', he'⟩
            · exact Or.inl h
            · exact Or.inr ⟨w', List.mem_cons_of_mem w hw', hm', he'⟩
      · simp only [windowEndLoop, if_pos h1, if_neg h2] at hr
        rcases ih _ _ hr with h | ⟨w', hw', hm', he'⟩
        · exact Or.inl h
        · exact Or.inr ⟨w', List.mem_cons_of_mem w hw', hm', he'⟩
    · simp only [windowEndLoop, if_neg h1] at hr
      rcases ih _ _ hr with h | ⟨w', hw', hm', he'⟩
      · exact Or.inl h
      · exact Or.inr ⟨w', List.mem_cons_of_mem w hw', hm', he'⟩

theorem windowEndLoop_some_bound (day today nowMin : Nat) :
    ∀ (l : List Window) (acc : Option Nat) (e : Nat),
      windowEndLoop day today nowMin l acc = some e →
      (∀ w ∈ l, activeMatch today nowMin w → dayMs day (timeToMinutes w.endT) ≤ e)
      ∧ (∀ a, acc = some a → a ≤ e) := by
  intro l
  induction l with
  | nil =>
    intro acc e hr
    refine ⟨by simp, fun a ha => ?_⟩
    simp only [windowEndLoop] at hr
    rw [ha] at hr
    exact le_of_eq (Option.some_inj.mp hr)
  | cons w t ih =>
    intro acc e hr
    by_cases h1 : today ∈ w.days
    · by_cases h2 : timeToMinutes w.start ≤ nowMin ∧ nowMin < timeToMinutes w.endT
      · cases acc with
        | none =>
          simp only [windowEndLoop, if_pos h1, if_pos h2] at hr
          have hb := (ih _ _ hr).2 _ rfl
          refine ⟨fun w' hw' hm' => ?_, by simp⟩
          rcases List.mem_cons.mp hw' with h | h
          · exact h ▸ hb
          · exact (ih _ _ hr).1 w' h hm'
        | some prev =>
          simp only [windowEndLoop, if_pos h1, if_pos h2] at hr
          by_cases h3 : dayMs day (timeToMinutes w.endT) > prev
          · rw [if_pos h3] at hr
            have hb := (ih _ _ hr).2 _ rfl
            refine ⟨fun w' hw' hm' => ?_, fun a ha => ?_⟩
            · rcases List.mem_cons.mp hw' with h | h
              · exact h ▸ hb
              · exact (ih _ _ hr).1 w' h hm'
            · have : prev = a := Option.some_inj.mp ha
              exact this ▸ le_trans (le_of_lt h3) hb
          · rw [if_neg h3] at hr
            have hb := (ih _ _ hr).2 _ rfl
            refine ⟨fun w' hw' hm' => ?_, fun a ha => ?_⟩
            · rcases List.mem_cons.mp hw' with h | h
              · exact h ▸ le_trans (not_lt.mp h3) hb
              · exact (ih _ _ hr).1 w' h hm'
            · have : prev = a := Option.some_inj.mp ha
              exact this ▸ hb
      · have hnm : ¬activeMatch today nowMin w := fun hm => h2 ⟨hm.2.1, hm.2.2⟩
        simp only [windowEndLoop, if_pos h1, if_neg h2] at hr
        refine ⟨fun w' hw' hm' => ?_, (ih _ _ hr).2⟩
        rcases List.mem_cons.mp hw' with h | h
        · exact absurd (h ▸ hm') hnm
        · exact (ih _ _ hr).1 w' h hm'
    · have hnm : ¬activeMatch today nowMin w := fun hm => h1 hm.1
      simp only [windowEndLoop, if_neg h1] at hr
      refine ⟨fun w' hw' hm' => ?_, (ih _ _ hr).2⟩
      rcases List.mem_cons.mp hw' with h | h
      · exact absurd (h ▸ hm') hnm
      · exact (ih _ _ hr).1 w' h hm'

theorem candAt_iff (today nowMin o : Nat) (w : Window) :
    candAt today nowMin o w ↔
      (today + o) % 7 ∈ w.days ∧ ¬(o = 0 ∧ timeToMinutes w.start ≤ nowMin) := by
  unfold candAt
  constructor
  · rintro ⟨h1, h2⟩
    exact ⟨h1, fun ⟨ho, hs⟩ => absurd hs (not_le.mpr (h2 ho))⟩
  · rintro ⟨h1, h2⟩
    exact ⟨h1, fun ho => not_le.mp (fun hs => h2 ⟨ho, hs⟩)⟩

theorem scanDayLoop_none_iff (day today nowMin offset : Nat) :
    ∀ (l : List Window) (acc : Option (Nat × Nat)),
      (scanDayLoop day today nowMin offset l acc = none ↔
        acc = none ∧ ∀ w ∈ l, ¬candAt today nowMin offset w) := by
  intro l
  induction l with
  | nil =>
    intro acc
    simp [scanDayLoop]
  | cons w t ih =>
    intro acc
    by_cases h1 : (today + offset) % 7 ∈ w.days
    · by_cases h2 : offset = 0 ∧ timeToMinutes w.start ≤ nowMin
      · have hnc : ¬candAt today nowMin offset w := by
          rw [candAt_iff]
          exact fun hc => hc.2 h2
        simp only [scanDayLoop, if_pos h1, if_pos h2]
        rw [ih]
        simp [hnc]
      · have hc : candAt today nowMin offset w := (candAt_iff _ _ _ _).mpr ⟨h1, h2⟩
        simp only [scanDayLoop, if_pos h1, if_neg h2]
        cases acc with
        | none =>
          simp only []
          rw [ih]
          simp [hc]
        | some pr =>
          simp only []
          by_cases h3 : dayMs (day + offset) (timeToMinutes w.start) < pr.1
          · rw [if_pos h3, ih]
            simp
          · rw [if_neg h3, ih]
            simp
    · have hnc : ¬candAt today nowMin offset w := by
        rw [candAt_iff]
        exact fun hc => h1 hc.1
      simp only [scanDayLoop, if_neg h1]
      rw [ih]
      simp [hnc]

theorem scanDayLoop_some_origin (day today nowMin offset : Nat) :
    ∀ (l : List Window) (acc : Option (Nat × Nat)) (s e : Nat),
      scanDayLoop day today nowMin offset l acc = some (s, e) →
      acc = some (s, e) ∨ ∃ w ∈ l, candAt today nowMin offset w
        ∧ s = dayMs (day + offset) (timeToMinutes w.start)
        ∧ e = dayMs (day + offset) (timeToMinutes w.endT) := by
  intro l
  induction l with
  | nil =>
    intro acc s e hr
    exact Or.inl hr
  | cons w t ih =>
    intro acc s e hr
    by_cases h1 : (today + offset) % 7 ∈ w.days
    · by_cases h2 : offset = 0 ∧ timeToMinutes w.start ≤ nowMin
      · simp only [scanDayLoop, if_pos h1, if_pos h2] at hr
        rcases ih _ _ _ hr with h | ⟨w', hw', hc', hs', he'⟩
        · exact Or.inl h
        · exact Or.inr ⟨w', List.mem_cons_of_mem w hw', hc', hs', he'⟩
      · have hc : candAt today nowMin offset w := (candAt_iff _ _ _ _).mpr ⟨h1, h2⟩
        simp only [scanDayLoop, if_pos h1, if_neg h2] at hr
        have hupd : ∀ hru : scanDayLoop day today nowMin offset t
            (some (dayMs (day + offset) (timeToMinutes w.start),
              dayMs (day + offset) (timeToMinutes w.endT))) = some (s, e),
            acc = some (s, e) ∨ ∃ w' ∈ w :: t, candAt today nowMin offset w'
              ∧ s = dayMs (day + offset) (timeToMinutes w'.start)
              ∧ e = dayMs (day + offset) (timeToMinutes w'.endT) := by
          intro hru
          rcases ih _ _ _ hru with h | ⟨w', hw', hc', hs', he'⟩
          · have h' := Option.some_inj.mp h
            exact Or.inr ⟨w, List.mem_cons_self w t, hc,
              (congrArg Prod.fst h').symm, (congrArg Prod.snd h').symm⟩
          · exact Or.inr ⟨w', List.mem_cons_of_mem w hw', hc', hs', he'⟩
        cases acc with
        | none =>
          simp only [] at hr
          exact hupd hr
        | some pr =>
          simp only [] at hr
          by_cases h3 : dayMs (day + offset) (timeToMinutes w.start) < pr.1
          · rw [if_pos h3] at hr
            exact hupd hr
          · rw [if_neg h3] at hr
            rcases ih _ _ _ hr with h | ⟨w', hw', hc', hs', he'⟩
            · exact Or.inl h
            · exact Or.inr ⟨w', List.mem_cons_of_mem w hw', hc', hs', he'⟩
    · simp only [scanDayLoop, if_neg h1] at hr
      rcases ih _ _ _ hr with h | ⟨w', hw', hc', hs', he'⟩
      · exact Or.inl h
      · exact Or.inr ⟨w', List.mem_cons_of_mem w hw', hc', hs', he'⟩

theorem scanDayLoop_some_min (day today nowMin offset : Nat) :
    ∀ (l : List Window) (acc : Option (Nat × Nat)) (s e : Nat),
      scanDayLoop day today nowMin offset l acc = some (s, e) →
      (∀ w ∈ l, candAt today nowMin offset w →
        s ≤ dayMs (day + offset) (timeToMinutes w.start))
      ∧ (∀ a b, acc = some (a, b) → s ≤ a) := by
  intro l
  induction l with
  | nil =>
    intro acc s e hr
    refine ⟨by simp, fun a b hab => ?_⟩
    simp only [scanDayLoop] at hr
    rw [hab] at hr
    exact le_of_eq (congrArg Prod.fst (Option.some_inj.mp hr)).symm
  | cons w t ih =>
    intro acc s e hr
    by_cases h1 : (today + offset) % 7 ∈ w.days
    · by_cases h2 : offset = 0 ∧ timeToMinutes w.start ≤ nowMin
      · have hnc : ¬candAt today nowMin offset w := by
          rw [candAt_iff]
          exact fun hc => hc.2 h2
        simp only [scanDayLoop, if_pos h1, if_pos h2] at hr
        refine ⟨fun w' hw' hc' => ?_, (ih _ _ _ hr).2⟩
        rcases List.mem_cons.mp hw' with h | h
        · exact absurd (h ▸ hc') hnc
        · exact (ih _ _ _ hr).1 w' h hc'
      · simp only [scanDayLoop, if_pos h1, if_neg h2] at hr
        cases acc with
        | none =>
          simp only [] at hr
          have hb := (ih _ _ _ hr).2 _ _ rfl
          refine ⟨fun w' hw' hc' => ?_, by simp⟩
          rcases List.mem_cons.mp hw' with h | h
          · exact h ▸ hb
          · exact (ih _ _ _ hr).1 w' h hc'
        | some pr =>
          simp only [] at hr
          by_cases h3 : dayMs (day + offset) (timeToMinutes w.start) < pr.1
          · rw [if_pos h3] at hr
            have hb := (ih _ _ _ hr).2 _ _ rfl
            refine ⟨fun w' hw' hc' => ?_, fun a b hab => ?_⟩
            · rcases List.mem_cons.mp hw' with h | h
              · exact h ▸ hb
              · exact (ih _ _ _ hr).1 w' h hc'
            · have h' := Option.some_inj.mp hab
              have : pr.1 = a := congrArg Prod.fst h'
              exact this ▸ le_trans hb (le_of_lt h3)
          · rw [if_neg h3] at hr
            have hb := (ih _ _ _ hr).2 pr.1 pr.2 (by simp)
            refine ⟨fun w' hw' hc' => ?_, fun a b hab => ?_⟩
            · rcases List.mem_cons.mp hw' with h | h
              · exact h ▸ le_trans hb (not_lt.mp h3)
              · exact (ih _ _ _ hr).1 w' h hc'
            · have h' := Option.some_inj.mp hab
              have : pr.1 = a := congrArg Prod.fst h'
              exact this ▸ hb
    · have hnc : ¬candAt today nowMin offset w := by
        rw [candAt_iff]
        exact fun hc => h1 hc.1
      simp only [scanDayLoop, if_neg h1] at hr
      refine ⟨fun w' hw' hc' => ?_, (ih _ _ _ hr).2⟩
      rcases List.mem_cons.mp hw' with h | h
      · exact absurd (h ▸ hc') hnc
      · exact (ih _ _ _ hr).1 w' h hc'

theorem scanNextAux_none_iff (windows : List Window) (day today nowMin : Nat) :
    ∀ (fuel o0 : Nat),
      (scanNextAux windows day today nowMin o0 fuel none = none ↔
        ∀ i < fuel, ∀ w ∈ windows, ¬candAt today nowMin (o0 + i) w) := by
  intro fuel
  induction fuel with
  | zero =>
    intro o0
    simp [scanNextAux]
  | succ n ih =>
    intro o0
    simp only [scanNextAux]
    cases hd : scanDayLoop day today nowMin o0 windows none with
    | some r =>
      simp only []
      constructor
      · intro h
        exact absurd h (by simp)
      · intro h
        obtain ⟨s, e⟩ := r
        rcases scanDayLoop_some_origin day today nowMin o0 windows none s e hd with
          h0 | ⟨w, hw, hc, _, _⟩
        · exact absurd h0 (by simp)
        · exact absurd hc (by simpa using h 0 (by omega) w hw)
    | none =>
      simp only []
      rw [ih (o0 + 1)]
      have hnone := ((scanDayLoop_none_iff day today nowMin o0 windows none).mp hd).2
      constructor
      · intro h i hi w hw
        cases i with
        | zero => simpa using hnone w hw
        | succ j =>
          have := h j (by omega) w hw
          rwa [show o0 + 1 + j = o0 + (j + 1) by omega] at this
      · intro h j hj w hw
        have := h (j + 1) (by omega) w hw
        rwa [show o0 + (j + 1) = o0 + 1 + j by omega] at this

theorem scanNextAux_some (windows : List Window) (day today nowMin : Nat) :
    ∀ (fuel o0 s e : Nat),
      scanNextAux windows day today nowMin o0 fuel none = some (s, e) →
      ∃ i, i < fuel ∧ ∃ w ∈ windows, candAt today nowMin (o0 + i) w
        ∧ s = dayMs (day + (o0 + i)) (timeToMinutes w.start)
        ∧ e = dayMs (day + (o0 + i)) (timeToMinutes w.endT) := by
  intro fuel
  induction fuel with
  | zero =>
    intro o0 s e hr
    simp [scanNextAux] at hr
  | succ n ih =>
    intro o0 s e hr
    simp only [scanNextAux] at hr
    cases hd : scanDayLoop day today nowMin o0 windows none with
    | some r =>
      rw [hd] at hr
      simp only [] at hr
      obtain ⟨s0, e0⟩ := r
      have hse := Option.some_inj.mp hr
      rcases scanDayLoop_some_origin day today nowMin o0 windows none s0 e0 hd with
        h0 | ⟨w, hw, hc, hs, he⟩
      · exact absurd h0 (by simp)
      · have h1 : s0 = s := congrArg Prod.fst hse
        have h2 : e0 = e := congrArg Prod.snd hse
        refine ⟨0, by omega, w, hw, by simpa using hc, ?_, ?_⟩
        · rw [← h1]
          simpa using hs
        · rw [← h2]
          simpa using he
    | none =>
      rw [hd] at hr
      simp only [] at hr
      rcases ih (o0 + 1) s e hr with ⟨i, hi, w, hw, hc, hs, he⟩
      refine ⟨i + 1, by omega, w, hw, ?_, ?_, ?_⟩
      · rwa [show o0 + (i + 1) = o0 + 1 + i by omega]
      · rwa [show o0 + (i + 1) = o0 + 1 + i by omega]
      · rwa [show o0 + (i + 1) = o0 + 1 + i by omega]

theorem scanNextAux_min (windows : List Window) (day today nowMin : Nat)
    (hval : ∀ w ∈ windows, timeToMinutes w.start < 1440) :
    ∀ (fuel o0 s e : Nat),
      scanNextAux windows day today nowMin o0 fuel none = some (s, e) →
      ∀ i, i < fuel → ∀ w ∈ windows, candAt today nowMin (o0 + i) w →
        s ≤ dayMs (day + (o0 + i)) (timeToMinutes w.start) := by
  intro fuel
  induction fuel with
  | zero =>
    intro o0 s e hr
    simp [scanNextAux] at hr
  | succ n ih =>
    intro o0 s e hr i hi w hw hc
    simp only [scanNextAux] at hr
    cases hd : scanDayLoop day today nowMin o0 windows none with
    | some r =>
      rw [hd] at hr
      simp only [] at hr
      obtain ⟨s0, e0⟩ := r
      have hse := Option.some_inj.mp hr
      have hs0 : s0 = s := congrArg Prod.fst hse
      cases i with
      | zero =>
        have := (scanDayLoop_some_min day today nowMin o0 windows none s0 e0 hd).1 w hw
          (by simpa using hc)
        rw [hs0] at this
        simpa using this
      | succ j =>
        rcases scanDayLoop_some_origin day today nowMin o0 windows none s0 e0 hd with
          h0 | ⟨w0, hw0, _, hstart, _⟩
        · exact absurd h0 (by simp)
        · have hlt := hval w0 hw0
          rw [← hs0, hstart]
          unfold dayMs
          have h1440 : timeToMinutes w0.start < 1440 := hlt
          omega
    | none =>
      rw [hd] at hr
      simp only [] at hr
      cases i with
      | zero =>
        have hnone := ((scanDayLoop_none_iff day today nowMin o0 windows none).mp hd).2 w hw
        exact absurd (by simpa using hc) hnone
      | succ j =>
        have := ih (o0 + 1) s e hr j (by omega) w hw
          (by rwa [show o0 + (j + 1) = o0 + 1 + j by omega] at hc)
        rwa [show o0 + (j + 1) = o0 + 1 + j by omega]

theorem csi_enabled_branch (config : ScheduleCfg) (now : Instant)
    (hen : config.enabled = true) (hne : config.windows ≠ []) :
    computeScheduleInfo (some config) now =
      (match windowEndLoop now.day (now.day % 7) now.minute config.windows none with
       | some e => ⟨true, true, some e, none, none⟩
       | none =>
         match scanNext config.windows now.day (now.day % 7) now.minute with
         | some se => ⟨true, false, none, some se.1, some se.2⟩
         | none => ⟨true, false, none, none, none⟩) := by
  simp only [computeScheduleInfo]
  rw [if_neg]
  push_neg
  exact ⟨by simp [hen], hne⟩

/-! ## C4: active iff inside a matching window; latest end wins -/

/-- C4: for an enabled config with a non-empty window list, the evaluator
reports `active = true` iff some window whose day set contains today's
weekday satisfies `start ≤ nowMinutes < end`; in that case `windowEnd` is
the (timestamp of the) latest such end among all matching windows. -/
theorem c4_active_iff_window (config : ScheduleCfg) (now : Instant)
    (hen : config.enabled = true) (hne : config.windows ≠ []) :
    ((computeScheduleInfo (some config) now).active = true ↔
      ∃ w ∈ config.windows, activeMatch (now.day % 7) now.minute w)
    ∧ ((computeScheduleInfo (some config) now).active = true →
       ∃ w ∈ config.windows, activeMatch (now.day % 7) now.minute w
         ∧ (computeScheduleInfo (some config) now).windowEnd =
             some (dayMs now.day (timeToMinutes w.endT))
         ∧ ∀ w' ∈ config.windows, activeMatch (now.day % 7) now.minute w' →
             dayMs now.day (timeToMinutes w'.endT) ≤ dayMs now.day (timeToMinutes w.endT)) := by
  rw [csi_enabled_branch config now hen hne]
  cases hw : windowEndLoop now.day (now.day % 7) now.minute config.windows none with
  | none =>
    have hno := ((windowEndLoop_none_iff now.day (now.day % 7) now.minute
      config.windows none).mp hw).2
    cases hs : scanNext config.windows now.day (now.day % 7) now.minute with
    | none =>
      refine ⟨⟨fun h => absurd h (by simp), fun ⟨w, hw', hm⟩ => absurd hm (hno w hw')⟩,
        fun h => absurd h (by simp)⟩
    | some se =>
      refine ⟨⟨fun h => absurd h (by simp), fun ⟨w, hw', hm⟩ => absurd hm (hno w hw')⟩,
        fun h => absurd h (by simp)⟩
  | some e =>
    rcases windowEndLoop_some_origin now.day (now.day % 7) now.minute config.windows
        none e hw with h | ⟨w, hww, hm, he⟩
    · exact absurd h (by simp)
    · have hbound := (windowEndLoop_some_bound now.day (now.day % 7) now.minute
        config.windows none e hw).1
      refine ⟨⟨fun _ => ⟨w, hww, hm⟩, fun _ => rfl⟩, fun _ => ⟨w, hww, hm, ?_, ?_⟩⟩
      · rw [← he]
      · intro w' hw' hm'
        rw [← he]
        exact hbound w' hw' hm'

/-- Witness for C4: the spec's Monday example (window Mon 08:00-17:00,
instant Monday 10:00): active, with `windowEnd` = Monday 17:00. -/
theorem c4_active_iff_window_witness :
    ((computeScheduleInfo (some ⟨true, [⟨[1], (8, 0), (17, 0)⟩]⟩) ⟨1, 600, 0⟩).active = true ↔
      ∃ w ∈ [(⟨[1], (8, 0), (17, 0)⟩ : Window)], activeMatch (1 % 7) 600 w)
    ∧ ((computeScheduleInfo (some ⟨true, [⟨[1], (8, 0), (17, 0)⟩]⟩) ⟨1, 600, 0⟩).windowEnd =
        some 147600000) := by
  have h := c4_active_iff_window ⟨true, [⟨[1], (8, 0), (17, 0)⟩]⟩ ⟨1, 600, 0⟩ rfl (by decide)
  refine ⟨h.1, ?_⟩
  rcases h.2 (by decide) with ⟨w, hw, hm, he, _⟩
  rw [he, List.mem_singleton.mp hw]
  decide

/-! ## C7: skip-next resolution of the `until` timestamp -/

theorem csi_shape (cfg? : Option ScheduleCfg) (now : Instant) (hday : 0 < now.day) :
    ((computeScheduleInfo cfg? now).active = false
      ∧ (computeScheduleInfo cfg? now).windowEnd = none
      ∧ (computeScheduleInfo cfg? now).nextEnd = none)
    ∨ ((computeScheduleInfo cfg? now).active = true
      ∧ ∃ e, (computeScheduleInfo cfg? now).windowEnd = some e ∧ 0 < e)
    ∨ ((computeScheduleInfo cfg? now).active = false
      ∧ (computeScheduleInfo cfg? now).windowEnd = none
      ∧ ∃ e, (computeScheduleInfo cfg? now).nextEnd = some e ∧ 0 < e) := by
  cases cfg? with
  | none => exact Or.inl ⟨rfl, rfl, rfl⟩
  | some config =>
    by_cases hg : config.enabled = false ∨ config.windows = []
    · left
      simp only [computeScheduleInfo, if_pos hg]
      simp
    · have hen : config.enabled = true := by
        rcases not_or.mp hg with ⟨h1, _⟩
        cases h : config.enabled
        · exact absurd h h1
        · rfl
      have hne : config.windows ≠ [] := (not_or.mp hg).2
      rw [csi_enabled_branch config now hen hne]
      cases hw : windowEndLoop now.day (now.day % 7) now.minute config.windows none with
      | some e =>
        right
        left
        refine ⟨rfl, e, rfl, ?_⟩
        rcases windowEndLoop_some_origin now.day (now.day % 7) now.minute config.windows
            none e hw with h | ⟨w, hww, hm, he⟩
        · exact absurd h (by simp)
        · have h1 : now.minute < timeToMinutes w.endT := hm.2.2
          rw [he]
          unfold dayMs
          omega
      | none =>
        cases hs : scanNext config.windows now.day (now.day % 7) now.minute with
        | none => exact Or.inl ⟨rfl, rfl, rfl⟩
        | some se =>
          right
          right
          refine ⟨rfl, rfl, se.2, rfl, ?_⟩
          obtain ⟨s0, e0⟩ := se
          rcases scanNextAux_some config.windows now.day (now.day % 7) now.minute 7 0 s0 e0
              hs with ⟨i, hi, w, hww, hc, hsv, hev⟩
          simp only []
          rw [hev]
          unfold dayMs
          omega

/-- C7: `startSkip` (the skip-next route) sets `until = currentWindowEnd`
when the evaluator reports an active window; otherwise `until =
nextWindowEnd` when a next window exists; with neither it fails with the
no-upcoming-window error and the Skip map is returned unchanged.
(`0 < now.day` holds for any real date: day 0 is the epoch Sunday.) -/
theorem c7_skip_until_resolution (tracker : Nat) (skips : List (Nat × Nat))
    (schedules : List (Nat × ScheduleCfg)) (now : Instant) (hday : 0 < now.day) :
    ((computeScheduleInfo (lookup schedules tracker) now).active = true →
      ∃ e, (computeScheduleInfo (lookup schedules tracker) now).windowEnd = some e
        ∧ skipNext tracker skips schedules now = ⟨none, some e, setKey skips tracker e⟩)
    ∧ ((computeScheduleInfo (lookup schedules tracker) now).active = false →
       ∀ e, (computeScheduleInfo (lookup schedules tracker) now).nextEnd = some e →
        skipNext tracker skips schedules now = ⟨none, some e, setKey skips tracker e⟩)
    ∧ ((computeScheduleInfo (lookup schedules tracker) now).active = false →
       (computeScheduleInfo (lookup schedules tracker) now).nextEnd = none →
        skipNext tracker skips schedules now =
          ⟨some "No upcoming schedule window to skip", none, skips⟩) := by
  rcases csi_shape (lookup schedules tracker) now hday with
    ⟨hact, hwe, hne⟩ | ⟨hact, e, hwe, hpos⟩ | ⟨hact, hwe, e, hne, hpos⟩
  · refine ⟨fun h => absurd h (by simp [hact]), fun _ e' he' => ?_, fun _ _ => ?_⟩
    · rw [hne] at he'
      exact absurd he' (by simp)
    · simp only [skipNext, hact, hwe, hne]
      rfl
  · refine ⟨fun _ => ⟨e, hwe, ?_⟩, fun h => absurd hact (by simp [h]), fun h => absurd hact (by simp [h])⟩
    simp only [skipNext, hact, hwe, otruthy]
    rw [decide_eq_true (by omega : e ≠ 0)]
    rfl
  · refine ⟨fun h => absurd h (by simp [hact]), fun _ e' he' => ?_, fun _ hne' => ?_⟩
    · rw [hne] at he'
      have hee : e = e' := Option.some_inj.mp he'
      simp only [skipNext, hact, hwe, hne, otruthy]
      rw [decide_eq_true (by omega : e ≠ 0)]
      simp [hee]
    · rw [hne] at hne'
      exact absurd hne' (by simp)

/-- Witness for C7: active-window case at Monday 10:00 — the skip is
recorded until Monday 17:00. -/
theorem c7_skip_until_resolution_witness :
    skipNext 5 [] [(5, ⟨true, [⟨[1], (8, 0), (17, 0)⟩]⟩)] ⟨1, 600, 0⟩ =
      ⟨none, some 147600000, [(5, 147600000)]⟩ := by
  have h := (c7_skip_until_resolution 5 [] [(5, ⟨true, [⟨[1], (8, 0), (17, 0)⟩]⟩)]
    ⟨1, 600, 0⟩ (by decide)).1 (by decide)
  rcases h with ⟨e, he, hr⟩
  have : e = 147600000 := by
    have h2 : (computeScheduleInfo
        (lookup [(5, (⟨true, [⟨[1], (8, 0), (17, 0)⟩]⟩ : ScheduleCfg))] 5)
        ⟨1, 600, 0⟩).windowEnd = some 147600000 := by decide
    rw [h2] at he
    exact (Option.some_inj.mp he).symm
  rw [this] at hr
  exact hr.trans (by decide)

/-! ## C5: the 7-day forward scan for the next window -/

/-- C5: for an enabled config at an instant with no active window, the
evaluator scans forward day-by-day for up to 7 days (offset `0` covering
the remainder of today: only windows with `nowMin < start` count) and
reports the earliest upcoming start as `nextStart` together with that same
window's end as `nextEnd`; when no candidate exists within 7 days, both are
null.  Well-formed `HH:MM` start times (`< 1440` minutes) are assumed, as
produced by parsing a time of day. -/
theorem c5_next_window_scan (config : ScheduleCfg) (now : Instant)
    (hen : config.enabled = true)
    (hval : ∀ w ∈ config.windows, timeToMinutes w.start < 1440)
    (hinactive : (computeScheduleInfo (some config) now).active = false) :
    (((computeScheduleInfo (some config) now).nextStart = none
       ∧ (computeScheduleInfo (some config) now).nextEnd = none) ↔
      ∀ o, o < 7 → ∀ w ∈ config.windows, ¬candAt (now.day % 7) now.minute o w)
    ∧ (∀ s, (computeScheduleInfo (some config) now).nextStart = some s →
        ∃ o, o < 7 ∧ ∃ w ∈ config.windows, candAt (now.day % 7) now.minute o w
          ∧ s = dayMs (now.day + o) (timeToMinutes w.start)
          ∧ (computeScheduleInfo (some config) now).nextEnd =
              some (dayMs (now.day + o) (timeToMinutes w.endT))
          ∧ ∀ o', o' < 7 → ∀ w' ∈ config.windows,
              candAt (now.day % 7) now.minute o' w' →
              s ≤ dayMs (now.day + o') (timeToMinutes w'.start)) := by
  by_cases hne : config.windows = []
  · constructor
    · simp only [computeScheduleInfo, if_pos (Or.inr hne), hne]
      simp
    · intro s hs
      simp only [computeScheduleInfo, if_pos (Or.inr hne)] at hs
      exact absurd hs (by simp)
  · rw [csi_enabled_branch config now hen hne] at hinactive ⊢
    cases hw : windowEndLoop now.day (now.day % 7) now.minute config.windows none with
    | some e =>
      rw [hw] at hinactive
      simp at hinactive
    | none =>
      cases hs : scanNext config.windows now.day (now.day % 7) now.minute with
      | none =>
        have hnone := (scanNextAux_none_iff config.windows now.day (now.day % 7)
          now.minute 7 0).mp hs
        refine ⟨⟨fun _ o ho w hww hc => ?_, fun _ => ⟨rfl, rfl⟩⟩, fun s hsv => absurd hsv (by simp)⟩
        have := hnone o ho w hww
        rw [Nat.zero_add] at this
        exact this hc
      | some se =>
        obtain ⟨s0, e0⟩ := se
        rcases scanNextAux_some config.windows now.day (now.day % 7) now.minute 7 0 s0 e0
            hs with ⟨i, hi, w, hww, hc, hsv, hev⟩
        rw [Nat.zero_add] at hc hsv hev
        constructor
        · constructor
          · rintro ⟨h1, _⟩
            exact absurd h1 (by simp)
          · intro hall
            exact absurd hc (hall i hi w hww)
        · intro s hsome
          have hs0 : s0 = s := by
            simpa using hsome
          refine ⟨i, hi, w, hww, hc, by rw [← hs0, hsv], by rw [hev], ?_⟩
          intro o' ho' w' hww' hc'
          have := scanNextAux_min config.windows now.day (now.day % 7) now.minute hval 7 0
            s0 e0 hs o' ho' w' hww' (by rwa [Nat.zero_add])
          rw [Nat.zero_add] at this
          rwa [← hs0]

/-- Witness for C5: the spec's Monday 07:00 example — `nextStart` Monday
08:00, `nextEnd` Monday 17:00 (offset 0, the single window). -/
theorem c5_next_window_scan_witness :
    ∃ o, o < 7 ∧ ∃ w ∈ [(⟨[1], (8, 0), (17, 0)⟩ : Window)], candAt (1 % 7) 420 o w
      ∧ 115200000 = dayMs (1 + o) (timeToMinutes w.start)
      ∧ (computeScheduleInfo (some ⟨true, [⟨[1], (8, 0), (17, 0)⟩]⟩) ⟨1, 420, 0⟩).nextEnd =
          some (dayMs (1 + o) (timeToMinutes w.endT))
      ∧ ∀ o', o' < 7 → ∀ w' ∈ [(⟨[1], (8, 0), (17, 0)⟩ : Window)],
          candAt (1 % 7) 420 o' w' →
          115200000 ≤ dayMs (1 + o') (timeToMinutes w'.start) := by
  exact (c5_next_window_scan ⟨true, [⟨[1], (8, 0), (17, 0)⟩]⟩ ⟨1, 420, 0⟩ rfl
    (by decide) (by decide)).2 115200000 (by decide)

/-! ## C2: idempotence of the reconciliation tick -/

theorem kidStep_some (snapshot : List Rule) (timers : List (Nat × TimerRec))
    (skips : List (Nat × Nat)) (schedules : List (Nat × ScheduleCfg)) (now : Instant)
    (kid : KidConfig) (r : Rule) (d : Bool)
    (h : kidStep snapshot timers skips schedules now kid = some (r, d)) :
    findRule snapshot kid.tracker = some r
    ∧ d = shouldBeAllowedOf skips schedules now kid.tracker
    ∧ r.disabled = !d := by
  have ht : (lookup timers kid.tracker).isSome = false := by
    cases hts : (lookup timers kid.tracker).isSome
    · rfl
    · simp [kidStep, hts] at h
  have he : ¬((computeScheduleInfo (lookup schedules kid.tracker) now).enabled = false) := by
    intro hef
    simp [kidStep, ht, hef] at h
  cases hf : findRule snapshot kid.tracker with
  | none => simp [kidStep, ht, he, hf] at h
  | some r0 =>
    cases hsb : (computeScheduleInfo (lookup schedules kid.tracker) now).active
        && !(skipActiveAt skips kid.tracker now.ms) <;> cases hd : r0.disabled <;>
      simp [kidStep, ht, he, hf, hsb, hd] at h
    · rcases h with ⟨h1, h2⟩
      refine ⟨by rw [h1], ?_, ?_⟩
      · rw [h2]
        simp [shouldBeAllowedOf, hsb]
      · rw [← h1, hd, h2]
        decide
    · rcases h with ⟨h1, h2⟩
      refine ⟨by rw [h1], ?_, ?_⟩
      · rw [h2]
        simp [shouldBeAllowedOf, hsb]
      · rw [← h1, hd, h2]
        decide

theorem kidStep_none_reach (snapshot : List Rule) (timers : List (Nat × TimerRec))
    (skips : List (Nat × Nat)) (schedules : List (Nat × ScheduleCfg)) (now : Instant)
    (kid : KidConfig) (r : Rule)
    (ht : lookup timers kid.tracker = none)
    (he : (computeScheduleInfo (lookup schedules kid.tracker) now).enabled = true)
    (hf : findRule snapshot kid.tracker = some r)
    (h : kidStep snapshot timers skips schedules now kid = none) :
    r.disabled = shouldBeAllowedOf skips schedules now kid.tracker := by
  have ht' : (lookup timers kid.tracker).isSome = false := by rw [ht]; rfl
  have he' : ¬((computeScheduleInfo (lookup schedules kid.tracker) now).enabled = false) := by
    rw [he]
    simp
  cases hsb : (computeScheduleInfo (lookup schedules kid.tracker) now).active
      && !(skipActiveAt skips kid.tracker now.ms) <;> cases hd : r.disabled <;>
    simp [kidStep, ht', he', hf, hsb, hd] at h <;>
    simp [shouldBeAllowedOf, hsb, hd]

theorem ovRule_tracker (f : Nat → Option Bool) (r : Rule) :
    (ovRule f r).tracker = r.tracker := by
  unfold ovRule
  cases f r.id <;> rfl

theorem ovRule_id (f : Nat → Option Bool) (r : Rule) : (ovRule f r).id = r.id := by
  unfold ovRule
  cases f r.id <;> rfl

theorem ovRule_none (r : Rule) : ovRule (fun _ => none) r = r := rfl

theorem ovWorld_id (rules : List Rule) : ovWorld (fun _ => none) rules = rules := by
  unfold ovWorld
  rw [show (ovRule (fun _ => none)) = id from funext ovRule_none, List.map_id]

theorem findRule_ovWorld (f : Nat → Option Bool) (rules : List Rule) (t : Nat) :
    findRule (ovWorld f rules) t = (findRule rules t).map (ovRule f) := by
  unfold findRule ovWorld
  have hp : ((fun r => decide (r.tracker = t)) ∘ ovRule f) =
      (fun r : Rule => decide (r.tracker = t)) := by
    funext r
    simp [Function.comp, ovRule_tracker]
  rw [List.find?_map, hp]

theorem ovRule_set_disabled (f : Nat → Option Bool) (r : Rule) (d : Bool) :
    { ovRule f r with disabled := d } = { r with disabled := d } := by
  unfold ovRule
  cases f r.id <;> rfl

theorem patchById_ovWorld (f : Nat → Option Bool) (rules : List Rule) (i : Nat) (d : Bool) :
    patchById (ovWorld f rules) i d =
      ovWorld (fun j => if j = i then some d else f j) rules := by
  unfold patchById ovWorld
  rw [List.map_map]
  apply List.map_congr_left
  intro r _
  simp only [Function.comp_apply]
  show (if (ovRule f r).id = i then { ovRule f r with disabled := d } else ovRule f r) =
    ovRule (fun j => if j = i then some d else f j) r
  by_cases hid : r.id = i
  · rw [if_pos (by rw [ovRule_id]; exact hid), ovRule_set_disabled]
    simp [ovRule, hid]
  · rw [if_neg (by rw [ovRule_id]; exact hid)]
    simp [ovRule, hid]

theorem runKids_world (snapshot : List Rule) (timers : List (Nat × TimerRec))
    (skips : List (Nat × Nat)) (schedules : List (Nat × ScheduleCfg)) (now : Instant) :
    ∀ (kids : List KidConfig) (f : Nat → Option Bool),
      (runKids snapshot timers skips schedules now kids (ovWorld f snapshot)).world =
        ovWorld (patchFunOf snapshot timers skips schedules now kids f) snapshot := by
  intro kids
  induction kids with
  | nil =>
    intro f
    rfl
  | cons kid rest ih =>
    intro f
    cases hstep : kidStep snapshot timers skips schedules now kid with
    | none =>
      simp only [runKids, patchFunOf, hstep]
      exact ih f
    | some rd =>
      obtain ⟨r, d⟩ := rd
      cases d <;> simp only [runKids, patchFunOf, hstep] <;>
        rw [patchById_ovWorld] <;> exact ih _

theorem patchFunOf_eq (snapshot : List Rule) (timers : List (Nat × TimerRec))
    (skips : List (Nat × Nat)) (schedules : List (Nat × ScheduleCfg)) (now : Instant) :
    ∀ (kids : List KidConfig) (f : Nat → Option Bool) (i : Nat),
      (∀ kid ∈ kids, ∀ r d,
        kidStep snapshot timers skips schedules now kid = some (r, d) → r.id ≠ i) →
      patchFunOf snapshot timers skips schedules now kids f i = f i := by
  intro kids
  induction kids with
  | nil =>
    intro f i _
    rfl
  | cons kid rest ih =>
    intro f i hno
    cases hstep : kidStep snapshot timers skips schedules now kid with
    | none =>
      simp only [patchFunOf, hstep]
      exact ih f i (fun k hk => hno k (List.mem_cons_of_mem kid hk))
    | some rd =>
      obtain ⟨r, d⟩ := rd
      simp only [patchFunOf, hstep]
      rw [ih _ i (fun k hk => hno k (List.mem_cons_of_mem kid hk))]
      have hne : ¬(i = r.id) :=
        fun hh => hno kid (List.mem_cons_self kid rest) r d hstep hh.symm
      simp [hne]

theorem findRule_mem {rules : List Rule} {t : Nat} {r : Rule}
    (h : findRule rules t = some r) : r ∈ rules ∧ r.tracker = t := by
  unfold findRule at h
  refine ⟨List.mem_of_find?_eq_some h, ?_⟩
  have := List.find?_some h
  simpa using this

theorem rule_ids_ne (rules : List Rule) (hids : (rules.map Rule.id).Nodup)
    {t1 t2 : Nat} {r1 r2 : Rule} (h1 : findRule rules t1 = some r1)
    (h2 : findRule rules t2 = some r2) (hne : t1 ≠ t2) : r1.id ≠ r2.id := by
  intro heq
  have hm1 := findRule_mem h1
  have hm2 := findRule_mem h2
  have hrr := List.inj_on_of_nodup_map hids hm1.1 hm2.1 heq
  exact hne (hm1.2.symm.trans (hrr ▸ hm2.2))

theorem filter_idem {α : Type} (p : α → Bool) (l : List α) :
    (l.filter p).filter p = l.filter p := by
  induction l with
  | nil => rfl
  | cons a t ih =>
    by_cases h : p a = true <;> simp [List.filter_cons, h, ih]

theorem runKids_all_none (snapshot : List Rule) (timers : List (Nat × TimerRec))
    (skips : List (Nat × Nat)) (schedules : List (Nat × ScheduleCfg)) (now : Instant) :
    ∀ (kids : List KidConfig) (world : List Rule),
      (∀ kid ∈ kids, kidStep snapshot timers skips schedules now kid = none) →
      runKids snapshot timers skips schedules now kids world = ⟨world, [], false, []⟩ := by
  intro kids
  induction kids with
  | nil =>
    intro world _
    rfl
  | cons kid rest ih =>
    intro world hall
    simp only [runKids, hall kid (List.mem_cons_self kid rest)]
    exact ih world (fun k hk => hall k (List.mem_cons_of_mem kid hk))

theorem enforce_rules_eq (kids : List KidConfig) (rules : List Rule)
    (timers : List (Nat × TimerRec)) (skips : List (Nat × Nat))
    (schedules : List (Nat × ScheduleCfg)) (now : Instant) :
    (enforceSchedules kids rules timers skips schedules now).rules =
      (runKids rules timers (skips.filter (fun p => decide (now.ms < p.2)))
        schedules now kids rules).world := by
  unfold enforceSchedules
  by_cases h : (runKids rules timers (skips.filter (fun p => decide (now.ms < p.2)))
      schedules now kids rules).needsApply <;> simp [h]

theorem enforce_skips_eq (kids : List KidConfig) (rules : List Rule)
    (timers : List (Nat × TimerRec)) (skips : List (Nat × Nat))
    (schedules : List (Nat × ScheduleCfg)) (now : Instant) :
    (enforceSchedules kids rules timers skips schedules now).skips =
      skips.filter (fun p => decide (now.ms < p.2)) := by
  unfold enforceSchedules
  by_cases h : (runKids rules timers (skips.filter (fun p => decide (now.ms < p.2)))
      schedules now kids rules).needsApply <;> simp [h]

theorem patchFun_correct (snapshot : List Rule) (timers : List (Nat × TimerRec))
    (skips : List (Nat × Nat)) (schedules : List (Nat × ScheduleCfg)) (now : Instant)
    (hids : (snapshot.map Rule.id).Nodup) :
    ∀ (kids : List KidConfig) (f : Nat → Option Bool),
      (kids.map KidConfig.tracker).Nodup →
      ∀ kid ∈ kids, ∀ r : Rule,
        lookup timers kid.tracker = none →
        (computeScheduleInfo (lookup schedules kid.tracker) now).enabled = true →
        findRule snapshot kid.tracker = some r →
        f r.id = none →
        (ovRule (patchFunOf snapshot timers skips schedules now kids f) r).disabled =
          shouldBeAllowedOf skips schedules now kid.tracker := by
  intro kids
  induction kids with
  | nil =>
    intro f _ kid hk
    simp at hk
  | cons kid0 rest ih =>
    intro f htr kid hk r hT hE hF hf0
    have htr_tail : (rest.map KidConfig.tracker).Nodup := (List.nodup_cons.mp htr).2
    have htr_head : kid0.tracker ∉ rest.map KidConfig.tracker := (List.nodup_cons.mp htr).1
    rcases List.mem_cons.mp hk with hkeq | hkmem
    · subst hkeq
      have hloc : ∀ k ∈ rest, ∀ (r' : Rule) (d' : Bool),
          kidStep snapshot timers skips schedules now k = some (r', d') → r'.id ≠ r.id := by
        intro k hkm r' d' hstep
        have hf' := (kidStep_some snapshot timers skips schedules now k r' d' hstep).1
        have hkt : k.tracker ≠ kid.tracker := by
          intro heq
          exact htr_head (heq ▸ List.mem_map_of_mem KidConfig.tracker hkm)
        exact rule_ids_ne snapshot hids hf' hF hkt
      cases hstep : kidStep snapshot timers skips schedules now kid with
      | none =>
        simp only [patchFunOf, hstep]
        have hpf : patchFunOf snapshot timers skips schedules now rest f r.id = f r.id :=
          patchFunOf_eq snapshot timers skips schedules now rest f r.id hloc
        unfold ovRule
        rw [hpf, hf0]
        exact kidStep_none_reach snapshot timers skips schedules now kid r hT hE hF hstep
      | some rd =>
        obtain ⟨r', d⟩ := rd
        have hks := kidStep_some snapshot timers skips schedules now kid r' d hstep
        have hrr : r' = r := by
          rw [hks.1] at hF
          exact Option.some_inj.mp hF
        simp only [patchFunOf, hstep]
        have hpf : patchFunOf snapshot timers skips schedules now rest
            (fun j => if j = r'.id then some d else f j) r.id =
            (fun j => if j = r'.id then some d else f j) r.id :=
          patchFunOf_eq snapshot timers skips schedules now rest _ r.id hloc
        unfold ovRule
        rw [hpf]
        have hd := hks.2.1
        simp [hrr, ← hd]
    · cases hstep : kidStep snapshot timers skips schedules now kid0 with
      | none =>
        simp only [patchFunOf, hstep]
        exact ih f htr_tail kid hkmem r hT hE hF hf0
      | some rd =>
        obtain ⟨r0, d0⟩ := rd
        simp only [patchFunOf, hstep]
        apply ih _ htr_tail kid hkmem r hT hE hF
        have hf0' := (kidStep_some snapshot timers skips schedules now kid0 r0 d0 hstep).1
        have hkt : kid.tracker ≠ kid0.tracker := by
          intro heq
          exact htr_head (heq ▸ List.mem_map_of_mem KidConfig.tracker hkmem)
        have hidne : r.id ≠ r0.id := rule_ids_ne snapshot hids hF hf0' hkt
        simp [hidne, hf0]

/-- C2: running the Reconciliation Loop twice in succession with no change
to the firewall rule state (other than the first run's own patches),
timers, skips, schedule config or clock, issues zero corrective rule
patches on the second run.  Unique rule ids and unique configured trackers
are assumed, as on a real pfSense installation. -/
theorem c2_second_run_no_patches (kids : List KidConfig) (rules : List Rule)
    (timers : List (Nat × TimerRec)) (skips : List (Nat × Nat))
    (schedules : List (Nat × ScheduleCfg)) (now : Instant)
    (hids : (rules.map Rule.id).Nodup)
    (htr : (kids.map KidConfig.tracker).Nodup) :
    ((enforceSchedules kids
        (enforceSchedules kids rules timers skips schedules now).rules timers
        (enforceSchedules kids rules timers skips schedules now).skips schedules
        now).trace.filter isPatchEv) = [] := by
  rw [enforce_rules_eq, enforce_skips_eq]
  have hW : (runKids rules timers (skips.filter (fun p => decide (now.ms < p.2)))
        schedules now kids rules).world =
      ovWorld (patchFunOf rules timers (skips.filter (fun p => decide (now.ms < p.2)))
        schedules now kids (fun _ => none)) rules := by
    have h0 := runKids_world rules timers
      (skips.filter (fun p => decide (now.ms < p.2))) schedules now kids (fun _ => none)
    rwa [ovWorld_id] at h0
  have hall : ∀ kid ∈ kids,
      kidStep ((runKids rules timers (skips.filter (fun p => decide (now.ms < p.2)))
          schedules now kids rules).world) timers
        (skips.filter (fun p => decide (now.ms < p.2))) schedules now kid = none := by
    intro kid hk
    by_cases ht : (lookup timers kid.tracker).isSome
    · simp [kidStep, ht]
    · by_cases he : (computeScheduleInfo (lookup schedules kid.tracker) now).enabled = false
      · simp [kidStep, Bool.not_eq_true _ ▸ ht, he]
      · have he' : (computeScheduleInfo (lookup schedules kid.tracker) now).enabled = true := by
          cases hee : (computeScheduleInfo (lookup schedules kid.tracker) now).enabled
          · exact absurd hee he
          · rfl
        have hfW : findRule ((runKids rules timers
              (skips.filter (fun p => decide (now.ms < p.2))) schedules now kids
              rules).world) kid.tracker =
            (findRule rules kid.tracker).map
              (ovRule (patchFunOf rules timers
                (skips.filter (fun p => decide (now.ms < p.2))) schedules now kids
                (fun _ => none))) := by
          rw [hW, findRule_ovWorld]
        cases hf : findRule rules kid.tracker with
        | none =>
          rw [hf] at hfW
          simp [kidStep, Bool.not_eq_true _ ▸ ht, he, hfW]
        | some r =>
          rw [hf] at hfW
          have hdis := patchFun_correct rules timers
            (skips.filter (fun p => decide (now.ms < p.2))) schedules now hids kids
            (fun _ => none) htr kid hk r (Option.not_isSome_iff_eq_none.mp ht) he' hf rfl
          cases hsb : (computeScheduleInfo (lookup schedules kid.tracker) now).active
              && !(skipActiveAt (skips.filter (fun p => decide (now.ms < p.2)))
                kid.tracker now.ms) <;>
            simp only [shouldBeAllowedOf, hsb] at hdis <;>
            simp [kidStep, Bool.not_eq_true _ ▸ ht, he, hfW, hsb, hdis]
  have hrun := runKids_all_none
    ((runKids rules timers (skips.filter (fun p => decide (now.ms < p.2)))
        schedules now kids rules).world) timers
    (skips.filter (fun p => decide (now.ms < p.2))) schedules now kids
    ((runKids rules timers (skips.filter (fun p => decide (now.ms < p.2)))
        schedules now kids rules).world) hall
  have htr2 : (enforceSchedules kids
      ((runKids rules timers (skips.filter (fun p => decide (now.ms < p.2)))
        schedules now kids rules).world) timers
      (skips.filter (fun p => decide (now.ms < p.2))) schedules now).trace = [] := by
    unfold enforceSchedules
    rw [filter_idem]
    simp [hrun]
  rw [htr2]
  rfl

/-- Witness for C2 at a concrete input: one kid whose block rule is
corrected (allowed) on the first run; the second run issues no patches. -/
theorem c2_second_run_no_patches_witness :
    ((enforceSchedules [⟨5, "kidA"⟩]
        (enforceSchedules [⟨5, "kidA"⟩] [⟨1, 5, false⟩] [] []
          [(5, ⟨true, [⟨[1], (8, 0), (17, 0)⟩]⟩)] ⟨1, 600, 0⟩).rules []
        (enforceSchedules [⟨5, "kidA"⟩] [⟨1, 5, false⟩] [] []
          [(5, ⟨true, [⟨[1], (8, 0), (17, 0)⟩]⟩)] ⟨1, 600, 0⟩).skips
        [(5, ⟨true, [⟨[1], (8, 0), (17, 0)⟩]⟩)] ⟨1, 600, 0⟩).trace.filter isPatchEv) = [] :=
  c2_second_run_no_patches [⟨5, "kidA"⟩] [⟨1, 5, false⟩] [] []
    [(5, ⟨true, [⟨[1], (8, 0), (17, 0)⟩]⟩)] ⟨1, 600, 0⟩ (by decide) (by decide)

end PfToggle
